import Mathlib

/-!
Verification development for the quartz-community/tui configuration editor.

The file embeds, as executable Lean definitions, the pure computational core of
the TUI's source files:

* the JavaScript value domain of the parsed configuration document (`JValue`),
* `deepEqual`, `getDefaultSettingValue`, `setNestedValue`, `isValidColorValue`
  and the field-schema table from `SettingsPanel`,
* the cursor clamp effects, the restore-to-default handler, and the
  priority-edit submit handler from `SettingsPanel` / `LayoutPanel`,
* `getZoneComponents` and the page-type override projection from `LayoutPanel`,
* the setup-wizard choice list and baseline documents from `SetupWizard` and
  `lib/config.ts`, and `writePluginsJson`'s payload transformation.

Each definition carries a comment naming the source location it embeds.
JavaScript numbers are modelled as integers (every numeric field of the
document — priorities, order values — is integral); object property maps are
modelled as association lists in insertion order, as JavaScript preserves
string-key insertion order; prototype-inherited properties of objects and
non-index properties attached to arrays are outside the modelled document
domain and are noted where relevant.
-/

/-- JavaScript runtime values as they occur in the configuration document and
in the panels' helpers. `vundefined` is JavaScript's `undefined`, which
`getDefaultSettingValue` and property lookup on a missing key produce; parsed
YAML/JSON documents themselves never contain it. Numbers are modelled as
integers. -/
inductive JValue where
  | vundefined : JValue
  | vnull : JValue
  | vbool : Bool → JValue
  | vnum : Int → JValue
  | vstr : String → JValue
  | varr : List JValue → JValue
  | vobj : List (String × JValue) → JValue
deriving Repr

/-- Property read on an object: JavaScript's `obj[key]`, yielding `undefined`
when the key is absent. Association lists model objects in insertion order. -/
def lookupProp : List (String × JValue) → String → JValue
  | [], _ => .vundefined
  | (k', v') :: rest, k => if k' = k then v' else lookupProp rest k

/-- Property write on an object: JavaScript's `obj[key] = v`. An existing key
is updated in place (keeping its position); a new key is appended, matching
string-key insertion order. -/
def setKey : List (String × JValue) → String → JValue → List (String × JValue)
  | [], k, v => [(k, v)]
  | (k', v') :: rest, k, v =>
    if k' = k then (k, v) :: rest else (k', v') :: setKey rest k v

/-- Key `k` does not occur among the property names of the list. -/
def keyAbsent : List (String × JValue) → String → Bool
  | [], _ => true
  | (k', _) :: rest, k => (k' ≠ k) && keyAbsent rest k

/-- The property names are pairwise distinct, as they always are for a
JavaScript object. -/
def hasNoDupKeys : List (String × JValue) → Bool
  | [] => true
  | (k, _) :: rest => keyAbsent rest k && hasNoDupKeys rest

mutual

/-- Embeds `deepEqual` (SettingsPanel, part_001 lines 150-169). The source
first tests `a === b` (value equality on primitives), returns false when
either side alone is `null` or the `typeof`s differ or both are non-objects,
distinguishes arrays from plain objects via `Array.isArray`, compares arrays
by length and element-wise recursion, and compares objects by key count and
recursion over the first object's keys looking each key up in the second
(`b[key]` being `undefined` when absent). -/
def deepEqual : JValue → JValue → Bool
  | .vundefined, .vundefined => true
  | .vnull, .vnull => true
  | .vbool a, .vbool b => a == b
  | .vnum a, .vnum b => a == b
  | .vstr a, .vstr b => a == b
  | .varr xs, .varr ys => xs.length == ys.length && deepEqualElems xs ys
  | .vobj ps, .vobj qs => ps.length == qs.length && deepEqualProps ps qs
  | _, _ => false

/-- Element-wise recursion of `deepEqual` over two arrays, the
`a.every((val, i) => deepEqual(val, b[i]))` loop (run under the equal-length
guard). -/
def deepEqualElems : List JValue → List JValue → Bool
  | [], [] => true
  | x :: xs, y :: ys => deepEqual x y && deepEqualElems xs ys
  | _, _ => false

/-- Recursion of `deepEqual` over the first object's keys, the
`keysA.every((key) => deepEqual(a[key], b[key]))` loop. -/
def deepEqualProps : List (String × JValue) → List (String × JValue) → Bool
  | [], _ => true
  | (k, v) :: ps, qs => deepEqual v (lookupProp qs k) && deepEqualProps ps qs

end

mutual

/-- The value lies in the parsed-document domain: no `undefined` anywhere and
every object has pairwise-distinct keys. Values read from the YAML/JSON
configuration document always satisfy this. -/
def isJsonValue : JValue → Bool
  | .vundefined => false
  | .vnull => true
  | .vbool _ => true
  | .vnum _ => true
  | .vstr _ => true
  | .varr xs => isJsonElems xs
  | .vobj ps => hasNoDupKeys ps && isJsonProps ps

/-- All elements lie in the parsed-document domain. -/
def isJsonElems : List JValue → Bool
  | [] => true
  | x :: xs => isJsonValue x && isJsonElems xs

/-- All property values lie in the parsed-document domain. -/
def isJsonProps : List (String × JValue) → Bool
  | [] => true
  | (_, v) :: ps => isJsonValue v && isJsonProps ps

end

/-- Canonical array-index reading of a property key: a nonempty digit string
without a superfluous leading zero, as JavaScript array element keys are
spelled. -/
def canonicalIndexOf (k : String) : Option Nat :=
  match k.data with
  | [] => none
  | c :: cs =>
    if (c :: cs).all Char.isDigit && (c ≠ '0' || cs.isEmpty) then
      some ((c :: cs).foldl (fun n d => 10 * n + (d.toNat - 48)) 0)
    else none

/-- Property read on an array value: element keys `"0"`, `"1"`, … and the own
property `"length"`. Prototype-inherited members (array methods) are outside
the modelled document domain and read as `undefined` here; configuration key
paths never name them. -/
def arrayProp (xs : List JValue) (k : String) : JValue :=
  if k = "length" then .vnum xs.length
  else
    match canonicalIndexOf k with
    | some i => xs.getD i .vundefined
    | none => .vundefined

/-- The walking loop of `getDefaultSettingValue` (part_001 lines 132-148):
starting from a value, each key step first returns `undefined` when the
current value is `null`, `undefined`, or not of `typeof` object, and
otherwise reads the property. -/
def getValueAtPath : JValue → List String → JValue
  | v, [] => v
  | .vobj props, k :: rest => getValueAtPath (lookupProp props k) rest
  | .varr xs, k :: rest => getValueAtPath (arrayProp xs k) rest
  | _, _ :: _ => .vundefined

/-- Embeds `getDefaultSettingValue(defaultConfig, keyPath)` (part_001 lines
132-148): `undefined` when no default document is loaded, otherwise the walk
from the root object. -/
def getDefaultSettingValue (defaultConfig : Option (List (String × JValue)))
    (keyPath : List String) : JValue :=
  match defaultConfig with
  | none => .vundefined
  | some props => getValueAtPath (.vobj props) keyPath

/-- JavaScript's element assignment `arr[i] = v` on an array modelled as a
list: an in-range index replaces the element in place, an index at or beyond
the current length extends the array to length `i + 1`, filling the skipped
positions with holes (which read back as `undefined`, here `vundefined`). -/
def setElemPad : List JValue → Nat → JValue → List JValue
  | [], 0, v => [v]
  | [], i + 1, v => .vundefined :: setElemPad [] i v
  | _ :: xs, 0, v => v :: xs
  | x :: xs, i + 1, v => x :: setElemPad xs i v

/-- Embeds the walk of `setNestedValue(obj, keyPath, value)` (part_001 lines
110-123) on the current container, an object or an array. The loop walks all
but the last key; at each step the guard
`!(keyPath[i] in current) || typeof current[keyPath[i]] !== "object"`
replaces a missing or non-object segment value by a fresh `{}` and then
descends into the segment value. An object container reads and writes its
properties; an array container addressed by a canonical index key reads the
element (`arrayProp`; a beyond-length index reads `undefined`, so the guard
creates a fresh `{}` there) and writes it back with `setElemPad`. A `null`
segment value survives the guard — JavaScript's `typeof null === "object"` —
and the walk then throws a TypeError using it as a container: modelled as
`none`. Also `none`, as limits of the list-modelled array domain rather than
source throws: an array segment addressed by a key that is no canonical index
(assigning `{}` to `"length"` does throw a RangeError, but a named key would
attach an own property that a JSON array cannot carry, and a final numeric
write to `"length"` would resize), and an empty key path over an array. An
empty key path over an object performs `obj[keyPath[-1]] = value`, whose key
`undefined` is coerced to the string "undefined". -/
def setNestedAt : JValue → List String → JValue → Option JValue
  | .vobj props, [], v => some (.vobj (setKey props "undefined" v))
  | .vobj props, [k], v => some (.vobj (setKey props k v))
  | .varr xs, [k], v =>
    (match canonicalIndexOf k with
     | some i => some (.varr (setElemPad xs i v))
     | none => none)
  | .vobj props, k :: k2 :: rest, v =>
    (match lookupProp props k with
     | .vobj cprops =>
       (setNestedAt (.vobj cprops) (k2 :: rest) v).map (fun c' => .vobj (setKey props k c'))
     | .varr cxs =>
       (setNestedAt (.varr cxs) (k2 :: rest) v).map (fun c' => .vobj (setKey props k c'))
     | .vnull => none
     | _ =>
       (setNestedAt (.vobj []) (k2 :: rest) v).map (fun c' => .vobj (setKey props k c')))
  | .varr xs, k :: k2 :: rest, v =>
    (match canonicalIndexOf k with
     | some i =>
       (match arrayProp xs k with
        | .vobj cprops =>
          (setNestedAt (.vobj cprops) (k2 :: rest) v).map (fun c' => .varr (setElemPad xs i c'))
        | .varr cxs =>
          (setNestedAt (.varr cxs) (k2 :: rest) v).map (fun c' => .varr (setElemPad xs i c'))
        | .vnull => none
        | _ =>
          (setNestedAt (.vobj []) (k2 :: rest) v).map (fun c' => .varr (setElemPad xs i c')))
     | none => none)
  | _, _, _ => none

/-- Embeds `setNestedValue(obj, keyPath, value)` (part_001 lines 110-123) at
the root document object: the walk of `setNestedAt` started on the root. The
write-backs preserve each container's kind, so a successful walk from an
object root always returns an object, extracted here. -/
def setNestedValue (obj : List (String × JValue)) (keyPath : List String)
    (value : JValue) : Option (List (String × JValue)) :=
  match setNestedAt (.vobj obj) keyPath value with
  | some (.vobj props') => some props'
  | _ => none

/-- The key path can be walked by `setNestedAt` without leaving the modelled
domain: every proper segment finds a value that is missing, a primitive, an
object, or an array element addressed by a canonical index key — never `null`
and never an array addressed by a non-index key — and a final segment over an
array container is a canonical index key. -/
def setPathOk : JValue → List String → Bool
  | .vobj _, [] => true
  | .vobj _, [_] => true
  | .varr _, [k] => (canonicalIndexOf k).isSome
  | .vobj props, k :: k2 :: rest =>
    (match lookupProp props k with
     | .vobj cprops => setPathOk (.vobj cprops) (k2 :: rest)
     | .varr cxs => setPathOk (.varr cxs) (k2 :: rest)
     | .vnull => false
     | _ => setPathOk (.vobj []) (k2 :: rest))
  | .varr xs, k :: k2 :: rest =>
    (match canonicalIndexOf k with
     | some _ =>
       (match arrayProp xs k with
        | .vobj cprops => setPathOk (.vobj cprops) (k2 :: rest)
        | .varr cxs => setPathOk (.varr cxs) (k2 :: rest)
        | .vnull => false
        | _ => setPathOk (.vobj []) (k2 :: rest))
     | none => false)
  | _, _ => false

/-- JavaScript whitespace recognized by `String.prototype.trim` and by
`parseInt`'s leading-whitespace skip, restricted to the characters that occur
in terminal input: space, tab, newline, carriage return, vertical tab and
form feed. -/
def jsWhitespace (c : Char) : Bool :=
  c = ' ' || c = '\t' || c = '\n' || c = '\r' || c = '\x0b' || c = '\x0c'

/-- JavaScript's `value.trim()` on the character list of a string. -/
def jsTrim (s : String) : List Char :=
  ((s.data.dropWhile jsWhitespace).reverse.dropWhile jsWhitespace).reverse

/-- A hexadecimal digit, the character class `[0-9a-fA-F]` of
`HEX_COLOR_REGEX`. -/
def isHexDigitChar (c : Char) : Bool :=
  c.isDigit || ('a' ≤ c && c ≤ 'f') || ('A' ≤ c && c ≤ 'F')

/-- Embeds the anchored test of `HEX_COLOR_REGEX` (part_001 line 58):
a `#` followed by exactly 3, 6 or 8 hexadecimal digits. -/
def hexColorTest (cs : List Char) : Bool :=
  match cs with
  | c :: rest =>
    decide (c = '#')
    && (rest.length == 3 || rest.length == 6 || rest.length == 8)
    && rest.all isHexDigitChar
  | [] => false

/-- The expansion of the alternation `(rgba?|hsla?|hwb|lab|lch|color)` of
`CSS_COLOR_FUNCTION_REGEX` (part_001 line 59). -/
def cssColorFunctionNames : List String :=
  ["rgb", "rgba", "hsl", "hsla", "hwb", "lab", "lch", "color"]

/-- A character matched by the regex metacharacter `.` without the dot-all
flag: anything but a line terminator. -/
def isRegexDotChar (c : Char) : Bool :=
  !(c = '\n' || c = '\r' || c = '\u2028' || c = '\u2029')

/-- Embeds the anchored, case-insensitive test of `CSS_COLOR_FUNCTION_REGEX`:
one of the eight listed function names, an opening parenthesis, at least one
non-line-terminator character, and a closing parenthesis ending the string.
Case-insensitivity is modelled by lower-casing the input, the pattern being
all-lowercase ASCII. -/
def cssColorFunctionTest (cs : List Char) : Bool :=
  let low := cs.map Char.toLower
  cssColorFunctionNames.any (fun name =>
    let pre := name.data ++ ['(']
    decide (low.take pre.length = pre)
    && decide (pre.length + 2 ≤ low.length)
    && decide (low.getLast? = some ')')
    && ((low.drop pre.length).dropLast.all isRegexDotChar))

/-- Embeds `isValidColorValue(value)` (part_001 lines 61-66): trim, reject the
empty string, accept a hex color, otherwise accept a CSS color function
call. -/
def isValidColorValue (value : String) : Bool :=
  let trimmed := jsTrim value
  if trimmed.isEmpty then false
  else hexColorTest trimmed || cssColorFunctionTest trimmed

/-- The digits-part of JavaScript's `parseInt(s, 10)`: the longest leading run
of decimal digits, `none` (NaN) when there is none. -/
def parseIntDigits (cs : List Char) : Option Nat :=
  let ds := cs.takeWhile Char.isDigit
  if ds.isEmpty then none
  else some (ds.foldl (fun n d => 10 * n + (d.toNat - 48)) 0)

/-- Embeds JavaScript's `parseInt(value, 10)` as used by the priority editor:
skip leading whitespace, read an optional sign, then the longest leading
digit run; `none` models the NaN result. -/
def parseIntJs (s : String) : Option Int :=
  match s.data.dropWhile jsWhitespace with
  | '-' :: rest => (parseIntDigits rest).map (fun n => -(n : Int))
  | '+' :: rest => (parseIntDigits rest).map (fun n => (n : Int))
  | cs => (parseIntDigits cs).map (fun n => (n : Int))

/-- The `View` union of `LayoutPanel` (LayoutPanel.tsx lines 18-26). -/
inductive LayoutView where
  | zones
  | moveZone
  | editPriority
  | editDisplay
  | editCondition
  | confirmRemoveLayout
  | groups
  | pageTypes
deriving Repr, DecidableEq

/-- Notification kinds of the `notify` callback. -/
inductive NoticeKind where
  | success
  | error
  | info
deriving Repr, DecidableEq

/-- The `layout` field of an enriched plugin (config.ts lines 191-198). -/
structure PluginLayout where
  position : String
  priority : Int
  display : Option String
  condition : Option String
  group : Option String
  groupOptions : Option (List (String × JValue))
deriving Repr

/-- The fields of an enriched plugin (config.ts `getEnrichedPlugins`) that the
layout panel's embedded operations read; the remaining fields (source,
options, order, category, installed-state, lock and manifest data) are not
consulted by them. -/
structure EnrichedPlugin where
  index : Nat
  name : String
  displayName : String
  enabled : Bool
  layout : Option PluginLayout
deriving Repr

/-- A `ZoneComponent` of `LayoutPanel` (LayoutPanel.tsx lines 33-43). -/
structure ZoneComponent where
  pluginIndex : Nat
  name : String
  displayName : String
  position : String
  priority : Int
  display : String
  condition : Option String
  group : Option String
  groupOptions : Option (List (String × JValue))
deriving Repr

/-- The component record pushed for a plugin (LayoutPanel.tsx lines 90-100),
with `display: plugin.layout.display ?? "all"`. -/
def mkZoneComponent (p : EnrichedPlugin) (l : PluginLayout) : ZoneComponent :=
  { pluginIndex := p.index
    name := p.name
    displayName := p.displayName
    position := l.position
    priority := l.priority
    display := l.display.getD "all"
    condition := l.condition
    group := l.group
    groupOptions := l.groupOptions }

/-- The fixed zone list `ZONES` (LayoutPanel.tsx lines 8-15), in its
declaration order. -/
def ZONES : List String :=
  ["header", "left", "beforeBody", "afterBody", "right", "footer"]

/-- The record literal initializing `zones` in `getZoneComponents`
(LayoutPanel.tsx lines 77-84), keys in the literal's order. -/
def emptyZoneRecord : List (String × List ZoneComponent) :=
  [("header", []), ("left", []), ("beforeBody", []), ("right", []),
   ("afterBody", []), ("footer", [])]

/-- JavaScript's `position in zones` test on the zone record. -/
def zoneRecordHas : List (String × List ZoneComponent) → String → Bool
  | [], _ => false
  | e :: rest, z => (e.1 = z) || zoneRecordHas rest z

/-- Reading `zones[z]` for one of the record's keys. -/
def zoneRecordGet : List (String × List ZoneComponent) → String → List ZoneComponent
  | [], _ => []
  | e :: rest, z => if e.1 = z then e.2 else zoneRecordGet rest z

/-- Appending a component to `zones[z]`, JavaScript's `zones[position].push(...)`. -/
def zonePush (zones : List (String × List ZoneComponent)) (z : String)
    (c : ZoneComponent) : List (String × List ZoneComponent) :=
  zones.map (fun e => if e.1 = z then (e.1, e.2 ++ [c]) else e)

/-- One iteration of the `for (const plugin of plugins)` loop of
`getZoneComponents` (LayoutPanel.tsx lines 86-101): skip a plugin without a
layout or disabled, skip a position outside the record's keys, otherwise push
its component. -/
def buildZonesStep (zones : List (String × List ZoneComponent))
    (p : EnrichedPlugin) : List (String × List ZoneComponent) :=
  match p.layout with
  | none => zones
  | some l =>
    if p.enabled = false then zones
    else if zoneRecordHas zones l.position then
      zonePush zones l.position (mkZoneComponent p l)
    else zones

/-- The unsorted zone record accumulated by `getZoneComponents`. -/
def buildZones (plugins : List EnrichedPlugin) : List (String × List ZoneComponent) :=
  plugins.foldl buildZonesStep emptyZoneRecord

/-- Insertion of a component before the first strictly greater priority, so
that a component lands after every earlier component of equal priority. -/
def insertByPriority (c : ZoneComponent) : List ZoneComponent → List ZoneComponent
  | [] => [c]
  | d :: rest =>
    if c.priority < d.priority then c :: d :: rest else d :: insertByPriority c rest

/-- The `zones[zone].sort((a, b) => a.priority - b.priority)` pass: an
ascending stable sort by priority (JavaScript's `Array.prototype.sort` is
stable), rendered as left-to-right insertion sort. -/
def sortByPriority (l : List ZoneComponent) : List ZoneComponent :=
  l.foldl (fun acc c => insertByPriority c acc) []

/-- Embeds `getZoneComponents(plugins)` (LayoutPanel.tsx lines 74-108). -/
def getZoneComponents (plugins : List EnrichedPlugin) :
    List (String × List ZoneComponent) :=
  (buildZones plugins).map (fun e => (e.1, sortByPriority e.2))

/-- Characterization view of one zone of the unsorted zone record: the
components of the plugins, in declaration order, that are enabled, have a
layout, and whose layout position is this zone. -/
def zoneContribution (plugins : List EnrichedPlugin) (z : String) :
    List ZoneComponent :=
  plugins.filterMap (fun p =>
    match p.layout with
    | some l =>
      if p.enabled = true ∧ l.position = z then some (mkZoneComponent p l) else none
    | none => none)

/-- The `byPageType` override entry (LayoutPanel.tsx lines 45-48): an optional
exclusion list and an optional positions record whose values are either a
zone-name string or an array (the clear-zone marker). -/
structure PageTypeOverride where
  exclude : Option (List String)
  positions : Option (List (String × JValue))
deriving Repr

/-- Reading an association list keyed by strings, JavaScript's `map?.[key]`. -/
def assocFind {α : Type} : List (String × α) → String → Option α
  | [], _ => none
  | e :: rest, k => if e.1 = k then some e.2 else assocFind rest k

/-- JavaScript's `list.find((c) => c.name === pluginName)` over components. -/
def compFind : List ZoneComponent → String → Option ZoneComponent
  | [], _ => none
  | c :: rest, n => if c.name = n then some c else compFind rest n

/-- The `base[zone].filter((comp) => !override.exclude?.includes(comp.name))`
stage (LayoutPanel.tsx lines 150-152); an absent exclusion list keeps every
component. -/
def excludeFilter (ex : Option (List String)) (l : List ZoneComponent) :
    List ZoneComponent :=
  match ex with
  | none => l
  | some names => l.filter (fun c => !names.contains c.name)

/-- The inner `for (const srcZone of ZONES)` loop (LayoutPanel.tsx lines
158-164): find the named component in any base zone and push it — repositioned
to the current zone — unless one of that name is already present. -/
def positionsPushStep (base : String → List ZoneComponent) (zone : String)
    (pluginName : String) (f : List ZoneComponent) (srcZone : String) :
    List ZoneComponent :=
  match compFind (base srcZone) pluginName with
  | some comp =>
    if (compFind f pluginName).isNone then
      f ++ [{ comp with position := zone }]
    else f
  | none => f

def positionsPush (base : String → List ZoneComponent) (zone : String)
    (pluginName : String) (f : List ZoneComponent) : List ZoneComponent :=
  ZONES.foldl (positionsPushStep base zone pluginName) f

/-- One iteration of the `for (const [pluginName, newPosition] of
Object.entries(override.positions))` loop (LayoutPanel.tsx lines 153-171): a
string value equal to the current zone pulls the component in, a string value
naming another zone filters it out, a non-string value does nothing here. -/
def positionsStep (base : String → List ZoneComponent) (zone : String)
    (f : List ZoneComponent) (entry : String × JValue) : List ZoneComponent :=
  match entry.2 with
  | .vstr s =>
    if s = zone then positionsPush base zone entry.1 f
    else f.filter (fun c => c.name ≠ entry.1)
  | _ => f

/-- Embeds the `zoneComponents` projection of `LayoutPanel` (LayoutPanel.tsx
lines 134-175) at one zone of the fixed six: the base record when the page
type is "default" or has no override, otherwise the exclusion filter, the
positions loop and the priority re-sort applied to the base. -/
def zoneComponentsForPageType (plugins : List EnrichedPlugin)
    (byPageType : Option (List (String × PageTypeOverride)))
    (activePageType : String) (zone : String) : List ZoneComponent :=
  let base := fun z => zoneRecordGet (getZoneComponents plugins) z
  if activePageType = "default" then base zone
  else
    match byPageType.bind (fun m => assocFind m activePageType) with
    | none => base zone
    | some ov =>
      if ZONES.contains zone then
        let f := excludeFilter ov.exclude (base zone)
        let f :=
          match ov.positions with
          | some ps => ps.foldl (positionsStep base zone) f
          | none => f
        sortByPriority f
      else []

/-- The clamp effect of `SettingsPanel` (part_001 lines 207-211): an index at
or beyond the visible-entry count becomes `Math.max(0, length - 1)`. Natural
subtraction renders the `Math.max(0, ...)` saturation. -/
def settingsClampIndex (highlightedIndex visibleCount : Nat) : Nat :=
  if highlightedIndex ≥ visibleCount then visibleCount - 1 else highlightedIndex

/-- The clamp effect of `LayoutPanel` (LayoutPanel.tsx lines 203-207): an
index exceeding `Math.max(0, length - 1)` becomes that bound. -/
def layoutClampIndex (selectedComponent componentCount : Nat) : Nat :=
  if selectedComponent > componentCount - 1 then componentCount - 1
  else selectedComponent

/-- The settings list's up-arrow move (part_001 line 293), wrapping to the
bottom from index 0; run only when the list is nonempty. -/
def settingsNavUp (prev count : Nat) : Nat :=
  if prev > 0 then prev - 1 else count - 1

/-- The settings list's down-arrow move (part_001 line 296), wrapping to the
top from the last index; run only when the list is nonempty. -/
def settingsNavDown (prev count : Nat) : Nat :=
  if prev < count - 1 then prev + 1 else 0

/-- Which notice the restore handler emits. -/
inductive RestoreNotice where
  | noDefaultError
  | alreadyDefaultInfo
  | restoredSuccess
deriving Repr, DecidableEq

/-- Outcome of the Shift+D restore handler: the notice shown and the value
written through `applyValue` (`none` when no write happens). -/
structure RestoreResult where
  notice : RestoreNotice
  write : Option JValue
deriving Repr

/-- Embeds the Shift+D restore-to-default handler of `SettingsPanel`
(part_001 lines 316-330): report and stop when the default is `undefined`,
report and stop when the current value is `deepEqual` to the default,
otherwise write the default value. -/
def restoreHandler (entryValue defaultValue : JValue) : RestoreResult :=
  match defaultValue with
  | .vundefined => { notice := .noDefaultError, write := none }
  | d =>
    if deepEqual entryValue d then { notice := .alreadyDefaultInfo, write := none }
    else { notice := .restoredSuccess, write := some d }

/-- Outcome of the priority editor's submit handler: the `updateLayout` call
performed (plugin array index and new layout), the notice shown, and the view
after the handler runs. -/
structure PrioritySubmitResult where
  write : Option (Nat × PluginLayout)
  notice : Option NoticeKind
  viewAfter : LayoutView
deriving Repr

/-- Embeds `findPluginArrayIndex` (LayoutPanel.tsx lines 243-248),
`plugins.findIndex((p) => p.index === pluginIndex)` with `none` for -1. -/
def findPluginArrayIndex (plugins : List EnrichedPlugin) (pluginIndex : Nat) :
    Option Nat :=
  plugins.findIdx? (fun p => p.index = pluginIndex)

/-- Embeds the priority editor's `onSubmit` (LayoutPanel.tsx lines 471-484):
parse the text with `parseInt(value, 10)`; only a non-NaN result on a plugin
found with a layout produces an `updateLayout` write and a success notice;
`exitView()` runs unconditionally, so the view is `zones` afterwards in every
case and a NaN parse produces neither a write nor a notice. -/
def editPrioritySubmit (plugins : List EnrichedPlugin)
    (selectedComp : ZoneComponent) (value : String) : PrioritySubmitResult :=
  match parseIntJs value with
  | none => { write := none, notice := none, viewAfter := .zones }
  | some num =>
    match findPluginArrayIndex plugins selectedComp.pluginIndex with
    | none => { write := none, notice := none, viewAfter := .zones }
    | some arrIdx =>
      match plugins[arrIdx]? with
      | none => { write := none, notice := none, viewAfter := .zones }
      | some plugin =>
        match plugin.layout with
        | none => { write := none, notice := none, viewAfter := .zones }
        | some l =>
          { write := some (arrIdx, { l with priority := num })
            notice := some .success
            viewAfter := .zones }

/-- The two setup choices of `SetupWizard` (SetupWizard.tsx lines 12, 16-32). -/
inductive SetupChoice where
  | useDefault
  | emptyConfig
deriving Repr, DecidableEq

/-- Embeds the `choices` list of `SetupWizard` (SetupWizard.tsx lines 16-32):
"Use default configuration" is offered only when a default document exists
(`readDefaultPluginsJson() !== null`); "Start with empty configuration" is
always offered. -/
def setupWizardChoices (hasDefault : Bool) : List SetupChoice :=
  (if hasDefault then [SetupChoice.useDefault] else []) ++ [SetupChoice.emptyConfig]

/-- The baseline `configuration` literal, written identically in
`SetupWizard`'s empty choice (SetupWizard.tsx lines 67-108) and in
`createConfigFromDefault`'s fallback (config.ts lines 349-390). -/
def baselineConfiguration : List (String × JValue) :=
  [("pageTitle", .vstr "Quartz"),
   ("enableSPA", .vbool true),
   ("enablePopovers", .vbool true),
   ("analytics", .vobj [("provider", .vstr "plausible")]),
   ("locale", .vstr "en-US"),
   ("baseUrl", .vstr "quartz.jzhao.xyz"),
   ("ignorePatterns", .varr [.vstr "private", .vstr "templates", .vstr ".obsidian"]),
   ("defaultDateType", .vstr "created"),
   ("theme", .vobj
     [("cdnCaching", .vbool true),
      ("typography", .vobj
        [("header", .vstr "Schibsted Grotesk"),
         ("body", .vstr "Source Sans Pro"),
         ("code", .vstr "IBM Plex Mono")]),
      ("colors", .vobj
        [("lightMode", .vobj
          [("light", .vstr "#faf8f8"),
           ("lightgray", .vstr "#e5e5e5"),
           ("gray", .vstr "#b8b8b8"),
           ("darkgray", .vstr "#4e4e4e"),
           ("dark", .vstr "#2b2b2b"),
           ("secondary", .vstr "#284b63"),
           ("tertiary", .vstr "#84a59d"),
           ("highlight", .vstr "rgba(143, 159, 169, 0.15)"),
           ("textHighlight", .vstr "#fff23688")]),
         ("darkMode", .vobj
          [("light", .vstr "#161618"),
           ("lightgray", .vstr "#393639"),
           ("gray", .vstr "#646464"),
           ("darkgray", .vstr "#d4d4d4"),
           ("dark", .vstr "#ebebec"),
           ("secondary", .vstr "#7b97aa"),
           ("tertiary", .vstr "#84a59d"),
           ("highlight", .vstr "rgba(143, 159, 169, 0.15)"),
           ("textHighlight", .vstr "#fff23688")])])])]

/-- The document written by `SetupWizard`'s "Start with empty configuration"
choice (SetupWizard.tsx lines 65-111), before `writePluginsJson` strips the
`$schema` key. -/
def emptySetupDocument : List (String × JValue) :=
  [("$schema", .vstr "./quartz/plugins/quartz-plugins.schema.json"),
   ("configuration", .vobj baselineConfiguration),
   ("plugins", .varr []),
   ("layout", .vobj [("groups", .vobj []), ("byPageType", .vobj [])])]

/-- The `minimal` document of `createConfigFromDefault` (config.ts lines
348-393), written when no default document exists. -/
def minimalConfigDocument : List (String × JValue) :=
  [("configuration", .vobj baselineConfiguration),
   ("plugins", .varr []),
   ("layout", .vobj [("groups", .vobj []), ("byPageType", .vobj [])])]

/-- Embeds the data transformation of `writePluginsJson` (config.ts lines
71-74): the rest-destructuring `const { $schema, ...rest } = data` drops the
top-level `$schema` property and keeps every other property, in order. -/
def writePluginsJsonPayload : List (String × JValue) → List (String × JValue)
  | [] => []
  | (k, v) :: rest =>
    if k = "$schema" then writePluginsJsonPayload rest
    else (k, v) :: writePluginsJsonPayload rest

/-- Reading of the specification's hex-color clause: a `#` followed by
exactly 3, 6 or 8 hexadecimal digits. -/
def specHexColor (cs : List Char) : Prop :=
  ∃ ds : List Char, cs = '#' :: ds ∧ (ds.length = 3 ∨ ds.length = 6 ∨ ds.length = 8)
    ∧ ∀ c ∈ ds, isHexDigitChar c = true

/-- Reading of the claim's color-function clause as written: ANY CSS color
function call syntax, i.e. any alphabetic function name followed by a
parenthesized nonempty argument. -/
def specCssFunctionCall (cs : List Char) : Prop :=
  ∃ name mid : List Char, name ≠ [] ∧ (∀ c ∈ name, c.isAlpha = true)
    ∧ mid ≠ [] ∧ cs = name ++ '(' :: (mid ++ [')'])

/-- The color-function syntax the code accepts: one of the eight function
names of `CSS_COLOR_FUNCTION_REGEX` (case-insensitively), an opening
parenthesis, a nonempty argument free of line terminators, and a closing
parenthesis ending the string. -/
def codeCssFunctionCall (cs : List Char) : Prop :=
  ∃ (name : String) (mid : List Char), name ∈ cssColorFunctionNames
    ∧ mid ≠ [] ∧ (∀ c ∈ mid, isRegexDotChar c = true)
    ∧ cs.map Char.toLower = name.data ++ '(' :: (mid ++ [')'])

/-! ## Helper lemmas -/

theorem keyAbsent_iff (ps : List (String × JValue)) (k : String) :
    keyAbsent ps k = true ↔ k ∉ ps.map Prod.fst := by
  induction ps with
  | nil => simp [keyAbsent]
  | cons kv rest ih =>
    obtain ⟨k', v'⟩ := kv
    simp only [keyAbsent, Bool.and_eq_true, decide_eq_true_eq, ih, List.map_cons,
      List.mem_cons, not_or]
    constructor
    · rintro ⟨h1, h2⟩
      exact ⟨fun h => h1 h.symm, h2⟩
    · rintro ⟨h1, h2⟩
      exact ⟨fun h => h1 h.symm, h2⟩

theorem lookupProp_of_mem_of_nodup :
    ∀ (ps : List (String × JValue)) (k : String) (v : JValue),
    hasNoDupKeys ps = true → (k, v) ∈ ps → lookupProp ps k = v := by
  intro ps
  induction ps with
  | nil => simp
  | cons kv rest ih =>
    obtain ⟨k', v'⟩ := kv
    intro k v hnd hmem
    simp only [hasNoDupKeys, Bool.and_eq_true] at hnd
    rcases List.mem_cons.mp hmem with h | h
    · injection h with h1 h2
      simp [lookupProp, h1, h2]
    · have hne : k' ≠ k := by
        intro hkk
        subst hkk
        have : k' ∈ rest.map Prod.fst := List.mem_map.mpr ⟨(k', v), h, rfl⟩
        exact ((keyAbsent_iff rest k').mp hnd.1) this
      simp only [lookupProp, if_neg hne]
      exact ih k v hnd.2 h

mutual

theorem deepEqual_self : ∀ a : JValue, isJsonValue a = true → deepEqual a a = true
  | .vundefined, h => by simp [isJsonValue] at h
  | .vnull, _ => rfl
  | .vbool b, _ => by simp [deepEqual]
  | .vnum n, _ => by simp [deepEqual]
  | .vstr s, _ => by simp [deepEqual]
  | .varr xs, h => by
    have h' : isJsonElems xs = true := by simpa [isJsonValue] using h
    simp [deepEqual, deepEqualElems_self xs h']
  | .vobj ps, h => by
    have h1 : hasNoDupKeys ps = true := by
      have := h
      simp only [isJsonValue, Bool.and_eq_true] at this
      exact this.1
    have h2 : isJsonProps ps = true := by
      have := h
      simp only [isJsonValue, Bool.and_eq_true] at this
      exact this.2
    have hp := deepEqualProps_self ps ps h2
      (fun k v hmem => lookupProp_of_mem_of_nodup ps k v h1 hmem)
    simp [deepEqual, hp]

theorem deepEqualElems_self : ∀ xs : List JValue, isJsonElems xs = true →
    deepEqualElems xs xs = true
  | [], _ => rfl
  | x :: xs, h => by
    have h1 : isJsonValue x = true := by
      have := h
      simp only [isJsonElems, Bool.and_eq_true] at this
      exact this.1
    have h2 : isJsonElems xs = true := by
      have := h
      simp only [isJsonElems, Bool.and_eq_true] at this
      exact this.2
    simp [deepEqualElems, deepEqual_self x h1, deepEqualElems_self xs h2]

theorem deepEqualProps_self : ∀ ps qs : List (String × JValue), isJsonProps ps = true →
    (∀ k v, (k, v) ∈ ps → lookupProp qs k = v) → deepEqualProps ps qs = true
  | [], _, _, _ => rfl
  | (k, v) :: ps, qs, h, hq => by
    have h1 : isJsonValue v = true := by
      have := h
      simp only [isJsonProps, Bool.and_eq_true] at this
      exact this.1
    have h2 : isJsonProps ps = true := by
      have := h
      simp only [isJsonProps, Bool.and_eq_true] at this
      exact this.2
    have hl : lookupProp qs k = v := hq k v (List.mem_cons_self _ _)
    simp only [deepEqualProps, Bool.and_eq_true, hl]
    exact ⟨deepEqual_self v h1,
      deepEqualProps_self ps qs h2 (fun k' v' hm => hq k' v' (List.mem_cons_of_mem _ hm))⟩

end

/-- Any non-`undefined` default runs the `deepEqual` branch of the restore
handler. -/
theorem restoreHandler_of_ne_vundef (v d : JValue) (hd : d ≠ .vundefined) :
    restoreHandler v d =
      if deepEqual v d then { notice := .alreadyDefaultInfo, write := none }
      else { notice := .restoredSuccess, write := some d } := by
  cases d <;> simp [restoreHandler] at hd ⊢

/-- A json-domain value is not `undefined`. -/
theorem isJsonValue_ne_vundef (v : JValue) (h : isJsonValue v = true) : v ≠ .vundefined := by
  intro hv
  subst hv
  simp [isJsonValue] at h

/-! ## Claim theorems -/

/-- C3 (confirmed). Cursor bounds-clamping invariant: the clamp effects of
`SettingsPanel` (on `highlightedIndex` against the visible-entry count) and
of `LayoutPanel` (on `selectedComponent` against the active zone's component
count) send any index at or beyond the new length to `max(0, newLength - 1)`,
leave any in-bounds index unchanged, and always land in `[0, newLength - 1]`
— or at 0 when the list is empty; the wrap-around cursor moves of the
settings list preserve the in-bounds invariant, so re-running the clamp after
every mutation keeps every reachable cursor in bounds. -/
theorem cursorClamp_bounds : ∀ i n : Nat,
    (settingsClampIndex i n < n ∨ (n = 0 ∧ settingsClampIndex i n = 0))
    ∧ (layoutClampIndex i n < n ∨ (n = 0 ∧ layoutClampIndex i n = 0))
    ∧ (i ≥ n → settingsClampIndex i n = n - 1 ∧ layoutClampIndex i n = n - 1)
    ∧ (i < n → settingsClampIndex i n = i ∧ layoutClampIndex i n = i)
    ∧ (0 < n → i < n → settingsNavUp i n < n ∧ settingsNavDown i n < n) := by
  intro i n
  unfold settingsClampIndex layoutClampIndex settingsNavUp settingsNavDown
  refine ⟨?_, ?_, fun h => ⟨?_, ?_⟩, fun h => ⟨?_, ?_⟩, fun h h' => ⟨?_, ?_⟩⟩ <;>
    split <;> omega

/-- C3 witness: the clamp at concrete values — a cursor at 5 over a list
shrunk to 3 entries clamps to 2, and an empty list clamps to 0. -/
theorem cursorClamp_bounds_witness :
    settingsClampIndex 5 3 = 2 ∧ layoutClampIndex 5 3 = 2
    ∧ settingsClampIndex 0 0 = 0 ∧ settingsNavUp 0 3 = 2 := by
  refine ⟨((cursorClamp_bounds 5 3).2.2.1 (by decide)).1,
    ((cursorClamp_bounds 5 3).2.2.1 (by decide)).2, ?_, ?_⟩
  · have h := (cursorClamp_bounds 0 0).1
    rcases h with h | h
    · exact absurd h (by decide)
    · exact h.2
  · have h := ((cursorClamp_bounds 0 3).2.2.2.2 (by decide) (by decide)).1
    revert h
    decide

/-- C4 (confirmed). Restore-to-default is idempotent: when the key path has no
defined default (`getDefaultSettingValue` yields `undefined`) the handler
reports the missing default and performs no write; when the current value is
deeply equal — per the source's `deepEqual`, not necessarily syntactically
identical — to a defined (document-domain) default, the handler emits the
"already default" notice — not the "restored" one — and performs no write,
leaving the document unchanged. -/
theorem restore_alreadyDefault_noop :
    ∀ (defaultConfig : Option (List (String × JValue))) (keyPath : List String)
      (v d : JValue),
    (getDefaultSettingValue defaultConfig keyPath = .vundefined →
      restoreHandler v (getDefaultSettingValue defaultConfig keyPath) =
        { notice := .noDefaultError, write := none })
    ∧ (isJsonValue d = true → deepEqual v d = true →
      restoreHandler v d = { notice := .alreadyDefaultInfo, write := none }) := by
  intro dc p v d
  constructor
  · intro h
    rw [h]
    rfl
  · intro hj hvd
    rw [restoreHandler_of_ne_vundef v d (isJsonValue_ne_vundef d hj), if_pos hvd]

/-- C4 witness: a missing default at path `x` of an absent default document is
reported with no write, and restoring an object value that is deeply equal to
its default without being syntactically identical to it — the same two
properties in a different insertion order — emits the already-default notice
with no write. -/
theorem restore_alreadyDefault_noop_witness :
    restoreHandler (.vbool true) (getDefaultSettingValue none ["x"]) =
      { notice := .noDefaultError, write := none }
    ∧ restoreHandler (.vobj [("a", .vnum 2), ("b", .vnull)])
        (.vobj [("b", .vnull), ("a", .vnum 2)]) =
      { notice := .alreadyDefaultInfo, write := none } :=
  ⟨(restore_alreadyDefault_noop none ["x"] (.vbool true)
      (.vobj [("b", .vnull), ("a", .vnum 2)])).1 rfl,
   (restore_alreadyDefault_noop none ["x"] (.vobj [("a", .vnum 2), ("b", .vnull)])
      (.vobj [("b", .vnull), ("a", .vnum 2)])).2 (by decide) (by decide)⟩

/-- C10 (confirmed). Every document write through `writePluginsJson` removes
the top-level `$schema` key before serialization — no key of the written
payload is `$schema` — while every other top-level key reads the same value
as in the input, and the payload is a subsequence of the input (keys kept
unchanged and in order). -/
theorem writePluginsJson_strips_schema : ∀ data : List (String × JValue),
    (∀ kv ∈ writePluginsJsonPayload data, kv.1 ≠ "$schema")
    ∧ (∀ k, k ≠ "$schema" →
        lookupProp (writePluginsJsonPayload data) k = lookupProp data k)
    ∧ List.Sublist (writePluginsJsonPayload data) data := by
  intro data
  induction data with
  | nil => exact ⟨by simp [writePluginsJsonPayload], fun k hk => rfl, List.Sublist.slnil⟩
  | cons kv rest ih =>
    obtain ⟨k', v'⟩ := kv
    obtain ⟨ih1, ih2, ih3⟩ := ih
    by_cases h1 : k' = "$schema"
    · subst h1
      refine ⟨?_, ?_, ?_⟩
      · simpa [writePluginsJsonPayload] using ih1
      · intro k hk
        have hne : ¬ ("$schema" = k) := fun h => hk h.symm
        simp [writePluginsJsonPayload, lookupProp, hne, ih2 k hk]
      · simp only [writePluginsJsonPayload, if_pos rfl]
        exact ih3.cons _
    · refine ⟨?_, ?_, ?_⟩
      · intro kv hkv
        simp only [writePluginsJsonPayload, if_neg h1, List.mem_cons] at hkv
        rcases hkv with h | h
        · rw [h]
          exact h1
        · exact ih1 kv h
      · intro k hk
        by_cases h2 : k' = k
        · subst h2
          simp [writePluginsJsonPayload, if_neg h1, lookupProp]
        · simp [writePluginsJsonPayload, if_neg h1, lookupProp, h2, ih2 k hk]
      · simp only [writePluginsJsonPayload, if_neg h1]
        exact ih3.cons₂ _

/-- C10 witness: on a document carrying a `$schema` key and a `plugins` key,
the `plugins` key reads unchanged through the written payload. -/
theorem writePluginsJson_strips_schema_witness :
    lookupProp (writePluginsJsonPayload
      [("$schema", .vstr "./schema.json"), ("plugins", .varr [])]) "plugins" =
    lookupProp [("$schema", JValue.vstr "./schema.json"), ("plugins", .varr [])]
      "plugins" :=
  (writePluginsJson_strips_schema
    [("$schema", .vstr "./schema.json"), ("plugins", .varr [])]).2.1
    "plugins" (by decide)

/-- C1 counterexample. Committing the text "not-a-number" into the numeric
priority field of a concrete layout component (a header plugin with priority
10) is not rejected with an in-place error and the editor does not remain
open: `parseInt` yields NaN, the handler performs no write, emits no notice
at all, and `exitView()` closes the editor back to the `zones` view — which
is not the `edit-priority` edit mode. -/
theorem priorityCommit_counterexample :
    editPrioritySubmit
      [{ index := 0, name := "pluginX", displayName := "Plugin X",
         enabled := true,
         layout := some { position := "header", priority := 10, display := none,
                          condition := none, group := none,
                          groupOptions := none } }]
      { pluginIndex := 0, name := "pluginX", displayName := "Plugin X",
        position := "header", priority := 10, display := "all",
        condition := none, group := none, groupOptions := none }
      "not-a-number"
      = { write := none, notice := none, viewAfter := .zones }
    ∧ LayoutView.zones ≠ LayoutView.editPriority :=
  ⟨rfl, by decide⟩

/-- C1 (corrected, amended claim). For the Layout panel's priority field,
committing a text value that does not parse as a number (`parseInt(value, 10)`
is NaN) performs no write — the stored priority is unchanged — but the commit
is dropped silently rather than rejected: no error notice is shown and the
editor exits edit mode back to the zones view. (The Settings panel's free-form
editor likewise never rejects: it commits the parse-JSON-else-string reading
of the text; rejection with an in-place error exists only for color fields.) -/
theorem priorityCommit_nonNumeric_silentDrop :
    ∀ (plugins : List EnrichedPlugin) (comp : ZoneComponent) (value : String),
    parseIntJs value = none →
    editPrioritySubmit plugins comp value =
      { write := none, notice := none, viewAfter := .zones } := by
  intro plugins comp value h
  simp [editPrioritySubmit, h]

/-- C1 witness: the amended theorem at the empty plugin list, a concrete
component and the non-numeric text "abc". -/
theorem priorityCommit_nonNumeric_silentDrop_witness :
    editPrioritySubmit []
      { pluginIndex := 0, name := "p", displayName := "p",
        position := "header", priority := 1, display := "all",
        condition := none, group := none, groupOptions := none }
      "abc"
      = { write := none, notice := none, viewAfter := .zones } :=
  priorityCommit_nonNumeric_silentDrop []
    { pluginIndex := 0, name := "p", displayName := "p",
      position := "header", priority := 1, display := "all",
      condition := none, group := none, groupOptions := none }
    "abc" rfl

/-- C8 counterexample. When no shipped default document exists
(`readDefaultPluginsJson()` is null, i.e. `hasDefault = false`), the
first-run setup wizard offers exactly one choice — "Start with empty
configuration" — not two. -/
theorem setupChoices_counterexample :
    setupWizardChoices false = [SetupChoice.emptyConfig]
    ∧ (setupWizardChoices false).length ≠ 2 :=
  ⟨rfl, by decide⟩

/-- C8 (corrected, amended claim). The first-run state offers the two choices
— adopt the shipped default document, or initialize a minimal empty document —
exactly when a shipped default document exists; without one only the
empty-document choice is offered. The empty choice writes the fixed baseline
document: a `configuration` with the baseline global settings (pageTitle,
enableSPA, enablePopovers, analytics, locale, baseUrl, ignorePatterns,
defaultDateType and the theme block), an empty `plugins` collection and an
empty `layout` (no groups, no page-type overrides); after `writePluginsJson`
strips `$schema` it coincides with `createConfigFromDefault`'s minimal
fallback document. -/
theorem setupChoices_characterization :
    setupWizardChoices true = [SetupChoice.useDefault, SetupChoice.emptyConfig]
    ∧ setupWizardChoices false = [SetupChoice.emptyConfig]
    ∧ lookupProp minimalConfigDocument "plugins" = .varr []
    ∧ lookupProp minimalConfigDocument "layout" =
        .vobj [("groups", .vobj []), ("byPageType", .vobj [])]
    ∧ lookupProp minimalConfigDocument "configuration" = .vobj baselineConfiguration
    ∧ lookupProp baselineConfiguration "enableSPA" = .vbool true
    ∧ writePluginsJsonPayload emptySetupDocument = minimalConfigDocument :=
  ⟨rfl, rfl, rfl, rfl, rfl, rfl, rfl⟩

theorem lookupProp_setKey_self : ∀ (ps : List (String × JValue)) (k : String) (v : JValue),
    lookupProp (setKey ps k v) k = v := by
  intro ps k v
  induction ps with
  | nil => simp [setKey, lookupProp]
  | cons kv rest ih =>
    obtain ⟨k', v'⟩ := kv
    by_cases h : k' = k
    · simp [setKey, h, lookupProp]
    · simp [setKey, h, lookupProp, ih]

theorem canonicalIndexOf_ne_length : ∀ (k : String) (i : Nat),
    canonicalIndexOf k = some i → k ≠ "length" := by
  intro k i h heq
  subst heq
  rw [(by decide : canonicalIndexOf "length" = none)] at h
  exact Option.noConfusion h

theorem getD_setElemPad : ∀ (i : Nat) (xs : List JValue) (v : JValue),
    (setElemPad xs i v).getD i .vundefined = v := by
  intro i
  induction i with
  | zero => intro xs v; cases xs <;> rfl
  | succ j ih =>
    intro xs v
    cases xs with
    | nil => exact ih [] v
    | cons x xs => exact ih xs v

theorem arrayProp_setElemPad : ∀ (k : String) (i : Nat) (xs : List JValue) (v : JValue),
    canonicalIndexOf k = some i → arrayProp (setElemPad xs i v) k = v := by
  intro k i xs v hci
  unfold arrayProp
  rw [if_neg (canonicalIndexOf_ne_length k i hci), hci]
  exact getD_setElemPad i xs v

theorem setNestedAt_vobj : ∀ (path : List String) (props : List (String × JValue))
    (v r : JValue), setNestedAt (.vobj props) path v = some r →
    ∃ props', r = .vobj props' := by
  intro path props v r h
  cases path with
  | nil =>
    simp [setNestedAt] at h
    exact ⟨_, h.symm⟩
  | cons k rest =>
    cases rest with
    | nil =>
      simp [setNestedAt] at h
      exact ⟨_, h.symm⟩
    | cons k2 rest2 =>
      cases hc : lookupProp props k with
      | vobj cprops =>
        simp [setNestedAt, hc, Option.map_eq_some'] at h
        obtain ⟨a, _, ha⟩ := h
        exact ⟨_, ha.symm⟩
      | varr cxs =>
        simp [setNestedAt, hc, Option.map_eq_some'] at h
        obtain ⟨a, _, ha⟩ := h
        exact ⟨_, ha.symm⟩
      | vnull => simp [setNestedAt, hc] at h
      | vundefined =>
        simp [setNestedAt, hc, Option.map_eq_some'] at h
        obtain ⟨a, _, ha⟩ := h
        exact ⟨_, ha.symm⟩
      | vbool b =>
        simp [setNestedAt, hc, Option.map_eq_some'] at h
        obtain ⟨a, _, ha⟩ := h
        exact ⟨_, ha.symm⟩
      | vnum n =>
        simp [setNestedAt, hc, Option.map_eq_some'] at h
        obtain ⟨a, _, ha⟩ := h
        exact ⟨_, ha.symm⟩
      | vstr s =>
        simp [setNestedAt, hc, Option.map_eq_some'] at h
        obtain ⟨a, _, ha⟩ := h
        exact ⟨_, ha.symm⟩

theorem setNestedAt_roundTrip : ∀ (path : List String) (cur : JValue) (v : JValue),
    path ≠ [] → setPathOk cur path = true →
    ∃ cur', setNestedAt cur path v = some cur' ∧ getValueAtPath cur' path = v := by
  intro path
  induction path with
  | nil => intro cur v h _; exact absurd rfl h
  | cons k rest ih =>
    intro cur v _ hok
    cases rest with
    | nil =>
      cases cur with
      | vobj props =>
        refine ⟨.vobj (setKey props k v), rfl, ?_⟩
        show getValueAtPath (.vobj (setKey props k v)) [k] = v
        simp [getValueAtPath, lookupProp_setKey_self]
      | varr xs =>
        cases hci : canonicalIndexOf k with
        | none => simp [setPathOk, hci] at hok
        | some i =>
          refine ⟨.varr (setElemPad xs i v), ?_, ?_⟩
          · simp [setNestedAt, hci]
          · simp only [getValueAtPath]
            exact arrayProp_setElemPad k i xs v hci
      | vundefined => simp [setPathOk] at hok
      | vnull => simp [setPathOk] at hok
      | vbool b => simp [setPathOk] at hok
      | vnum n => simp [setPathOk] at hok
      | vstr s => simp [setPathOk] at hok
    | cons k2 rest2 =>
      cases cur with
      | vobj props =>
        cases hc : lookupProp props k with
        | vobj cprops =>
          have hok' : setPathOk (.vobj cprops) (k2 :: rest2) = true := by
            simpa [setPathOk, hc] using hok
          obtain ⟨c', h1, h2⟩ := ih (.vobj cprops) v (by simp) hok'
          refine ⟨.vobj (setKey props k c'), ?_, ?_⟩
          · simp [setNestedAt, hc, h1]
          · show getValueAtPath (.vobj (setKey props k c')) (k :: k2 :: rest2) = v
            simp only [getValueAtPath, lookupProp_setKey_self]
            exact h2
        | varr cxs =>
          have hok' : setPathOk (.varr cxs) (k2 :: rest2) = true := by
            simpa [setPathOk, hc] using hok
          obtain ⟨c', h1, h2⟩ := ih (.varr cxs) v (by simp) hok'
          refine ⟨.vobj (setKey props k c'), ?_, ?_⟩
          · simp [setNestedAt, hc, h1]
          · show getValueAtPath (.vobj (setKey props k c')) (k :: k2 :: rest2) = v
            simp only [getValueAtPath, lookupProp_setKey_self]
            exact h2
        | vnull => exact absurd hok (by simp [setPathOk, hc])
        | vundefined =>
          have hok' : setPathOk (.vobj []) (k2 :: rest2) = true := by
            simpa [setPathOk, hc] using hok
          obtain ⟨c', h1, h2⟩ := ih (.vobj []) v (by simp) hok'
          refine ⟨.vobj (setKey props k c'), ?_, ?_⟩
          · simp [setNestedAt, hc, h1]
          · show getValueAtPath (.vobj (setKey props k c')) (k :: k2 :: rest2) = v
            simp only [getValueAtPath, lookupProp_setKey_self]
            exact h2
        | vbool b =>
          have hok' : setPathOk (.vobj []) (k2 :: rest2) = true := by
            simpa [setPathOk, hc] using hok
          obtain ⟨c', h1, h2⟩ := ih (.vobj []) v (by simp) hok'
          refine ⟨.vobj (setKey props k c'), ?_, ?_⟩
          · simp [setNestedAt, hc, h1]
          · show getValueAtPath (.vobj (setKey props k c')) (k :: k2 :: rest2) = v
            simp only [getValueAtPath, lookupProp_setKey_self]
            exact h2
        | vnum n =>
          have hok' : setPathOk (.vobj []) (k2 :: rest2) = true := by
            simpa [setPathOk, hc] using hok
          obtain ⟨c', h1, h2⟩ := ih (.vobj []) v (by simp) hok'
          refine ⟨.vobj (setKey props k c'), ?_, ?_⟩
          · simp [setNestedAt, hc, h1]
          · show getValueAtPath (.vobj (setKey props k c')) (k :: k2 :: rest2) = v
            simp only [getValueAtPath, lookupProp_setKey_self]
            exact h2
        | vstr s =>
          have hok' : setPathOk (.vobj []) (k2 :: rest2) = true := by
            simpa [setPathOk, hc] using hok
          obtain ⟨c', h1, h2⟩ := ih (.vobj []) v (by simp) hok'
          refine ⟨.vobj (setKey props k c'), ?_, ?_⟩
          · simp [setNestedAt, hc, h1]
          · show getValueAtPath (.vobj (setKey props k c')) (k :: k2 :: rest2) = v
            simp only [getValueAtPath, lookupProp_setKey_self]
            exact h2
      | varr xs =>
        cases hci : canonicalIndexOf k with
        | none => simp [setPathOk, hci] at hok
        | some i =>
          have hkl : k ≠ "length" := canonicalIndexOf_ne_length k i hci
          cases he : arrayProp xs k with
          | vobj cprops =>
            have hok' : setPathOk (.vobj cprops) (k2 :: rest2) = true := by
              simpa [setPathOk, hci, he] using hok
            obtain ⟨c', h1, h2⟩ := ih (.vobj cprops) v (by simp) hok'
            refine ⟨.varr (setElemPad xs i c'), ?_, ?_⟩
            · simp [setNestedAt, hci, he, h1]
            · simp only [getValueAtPath]
              rw [arrayProp_setElemPad k i xs c' hci]
              exact h2
          | varr cxs =>
            have hok' : setPathOk (.varr cxs) (k2 :: rest2) = true := by
              simpa [setPathOk, hci, he] using hok
            obtain ⟨c', h1, h2⟩ := ih (.varr cxs) v (by simp) hok'
            refine ⟨.varr (setElemPad xs i c'), ?_, ?_⟩
            · simp [setNestedAt, hci, he, h1]
            · simp only [getValueAtPath]
              rw [arrayProp_setElemPad k i xs c' hci]
              exact h2
          | vnull => exact absurd hok (by simp [setPathOk, hci, he])
          | vundefined =>
            have hok' : setPathOk (.vobj []) (k2 :: rest2) = true := by
              simpa [setPathOk, hci, he] using hok
            obtain ⟨c', h1, h2⟩ := ih (.vobj []) v (by simp) hok'
            refine ⟨.varr (setElemPad xs i c'), ?_, ?_⟩
            · simp [setNestedAt, hci, he, h1]
            · simp only [getValueAtPath]
              rw [arrayProp_setElemPad k i xs c' hci]
              exact h2
          | vbool b =>
            have hok' : setPathOk (.vobj []) (k2 :: rest2) = true := by
              simpa [setPathOk, hci, he] using hok
            obtain ⟨c', h1, h2⟩ := ih (.vobj []) v (by simp) hok'
            refine ⟨.varr (setElemPad xs i c'), ?_, ?_⟩
            · simp [setNestedAt, hci, he, h1]
            · simp only [getValueAtPath]
              rw [arrayProp_setElemPad k i xs c' hci]
              exact h2
          | vnum n =>
            have hok' : setPathOk (.vobj []) (k2 :: rest2) = true := by
              simpa [setPathOk, hci, he] using hok
            obtain ⟨c', h1, h2⟩ := ih (.vobj []) v (by simp) hok'
            refine ⟨.varr (setElemPad xs i c'), ?_, ?_⟩
            · simp [setNestedAt, hci, he, h1]
            · simp only [getValueAtPath]
              rw [arrayProp_setElemPad k i xs c' hci]
              exact h2
          | vstr s =>
            have hok' : setPathOk (.vobj []) (k2 :: rest2) = true := by
              simpa [setPathOk, hci, he] using hok
            obtain ⟨c', h1, h2⟩ := ih (.vobj []) v (by simp) hok'
            refine ⟨.varr (setElemPad xs i c'), ?_, ?_⟩
            · simp [setNestedAt, hci, he, h1]
            · simp only [getValueAtPath]
              rw [arrayProp_setElemPad k i xs c' hci]
              exact h2
      | vundefined => simp [setPathOk] at hok
      | vnull => simp [setPathOk] at hok
      | vbool b => simp [setPathOk] at hok
      | vnum n => simp [setPathOk] at hok
      | vstr s => simp [setPathOk] at hok

/-- C2 counterexample. The document `{"a": null}` with key path `["a", "b"]`:
the existing value `null` at the intermediate segment `"a"` is not itself an
object, yet `setNestedValue` does not create an intermediate object node
there — JavaScript's `typeof null === "object"` makes the replacement guard
keep the `null`, and the subsequent property assignment throws a TypeError
(modelled as `none`), so the set fails and no value can be read back. -/
theorem setNestedValue_counterexample :
    setNestedValue [("a", JValue.vnull)] ["a", "b"] (.vbool true) = none := rfl

/-- C2 (corrected, amended claim). Round-trip holds away from `null`
intermediates: for every document, nonempty key path P and value V of any
supported kind, if the existing value at each proper segment of P is missing,
a primitive, an object, or an array element addressed by a canonical index
key (and a final segment over an array is a canonical index key), then the
set succeeds — `setNestedValue` descends objects and arrays and creates a
fresh intermediate object node where the segment value is missing or a
primitive — and `getDefaultSettingValue` at P returns exactly V. A `null`
intermediate value instead makes the set throw: JavaScript's
`typeof null === "object"` defeats the create-if-missing guard, so the null
is kept and then used as a container. (Array segments addressed by non-index
keys are outside the list-modelled array domain and are not covered.) -/
theorem setNestedValue_roundTrip :
    ∀ (keyPath : List String) (obj : List (String × JValue)) (value : JValue),
    keyPath ≠ [] → setPathOk (.vobj obj) keyPath = true →
    ∃ obj', setNestedValue obj keyPath value = some obj'
      ∧ getDefaultSettingValue (some obj') keyPath = value := by
  intro keyPath obj v hne hok
  obtain ⟨cur', h1, h2⟩ := setNestedAt_roundTrip keyPath (.vobj obj) v hne hok
  obtain ⟨props', rfl⟩ := setNestedAt_vobj keyPath obj v cur' h1
  refine ⟨props', ?_, h2⟩
  simp [setNestedValue, h1]

/-- C2 witness: setting a nested array value two levels deep in a document
whose segment `"theme"` currently holds a primitive replaces the primitive by
a fresh object node and reads back the exact value set; and in the document
`{"a": [{"x": 1}]}` the set at path `["a", "0", "x"]` descends the array at
its canonical index key `"0"` and reads back the exact value set. -/
theorem setNestedValue_roundTrip_witness :
    (∃ obj', setNestedValue [("theme", JValue.vnum 7)] ["theme", "colors"]
        (.varr [.vstr "x", .vnum 3]) = some obj'
      ∧ getDefaultSettingValue (some obj') ["theme", "colors"] =
        .varr [.vstr "x", .vnum 3])
    ∧ (∃ obj', setNestedValue [("a", JValue.varr [.vobj [("x", .vnum 1)]])]
        ["a", "0", "x"] (.vnum 7) = some obj'
      ∧ getDefaultSettingValue (some obj') ["a", "0", "x"] = .vnum 7) :=
  ⟨setNestedValue_roundTrip ["theme", "colors"] [("theme", .vnum 7)]
      (.varr [.vstr "x", .vnum 3]) (by decide) (by decide),
   setNestedValue_roundTrip ["a", "0", "x"] [("a", .varr [.vobj [("x", .vnum 1)]])]
      (.vnum 7) (by decide) (by decide)⟩

theorem deepEqual_vundef_right : ∀ a : JValue, a ≠ .vundefined →
    deepEqual a .vundefined = false := by
  intro a h
  cases a with
  | vundefined => exact absurd rfl h
  | vnull => rfl
  | vbool b => rfl
  | vnum n => rfl
  | vstr s => rfl
  | varr xs => rfl
  | vobj ps => rfl

theorem deepEqualElems_get : ∀ xs ys : List JValue, deepEqualElems xs ys = true →
    ∀ i (h1 : i < xs.length) (h2 : i < ys.length),
    deepEqual (xs.get ⟨i, h1⟩) (ys.get ⟨i, h2⟩) = true := by
  intro xs
  induction xs with
  | nil => intro ys h i h1 h2; simp at h1
  | cons x xs ih =>
    intro ys h i h1 h2
    cases ys with
    | nil => simp at h2
    | cons y ys =>
      simp only [deepEqualElems, Bool.and_eq_true] at h
      cases i with
      | zero => simpa using h.1
      | succ j =>
        exact ih ys h.2 j (Nat.lt_of_succ_lt_succ h1) (Nat.lt_of_succ_lt_succ h2)

theorem deepEqualProps_forall : ∀ ps qs : List (String × JValue),
    deepEqualProps ps qs = true →
    ∀ k v, (k, v) ∈ ps → deepEqual v (lookupProp qs k) = true := by
  intro ps
  induction ps with
  | nil => intro qs h k v hm; simp at hm
  | cons kv rest ih =>
    obtain ⟨k', v'⟩ := kv
    intro qs h k v hm
    simp only [deepEqualProps, Bool.and_eq_true] at h
    rcases List.mem_cons.mp hm with h1 | h1
    · injection h1 with e1 e2
      subst e1
      subst e2
      exact h.1
    · exact ih qs h.2 k v h1

theorem lookupProp_of_not_mem : ∀ (qs : List (String × JValue)) (k : String),
    k ∉ qs.map Prod.fst → lookupProp qs k = .vundefined := by
  intro qs
  induction qs with
  | nil => intro k _; rfl
  | cons kv rest ih =>
    obtain ⟨k', v'⟩ := kv
    intro k hk
    simp only [List.map_cons, List.mem_cons, not_or] at hk
    have hne : ¬ (k' = k) := fun h => hk.1 h.symm
    simp only [lookupProp, if_neg hne]
    exact ih k hk.2

theorem isJsonProps_value : ∀ (ps : List (String × JValue)) (k : String) (v : JValue),
    isJsonProps ps = true → (k, v) ∈ ps → isJsonValue v = true := by
  intro ps
  induction ps with
  | nil => intro k v _ hm; simp at hm
  | cons kv rest ih =>
    obtain ⟨k', v'⟩ := kv
    intro k v h hm
    simp only [isJsonProps, Bool.and_eq_true] at h
    rcases List.mem_cons.mp hm with h1 | h1
    · injection h1 with e1 e2
      subst e2
      exact h.1
    · exact ih k v h.2 h1

theorem hasNoDupKeys_iff_nodup : ∀ ps : List (String × JValue),
    hasNoDupKeys ps = true ↔ (ps.map Prod.fst).Nodup := by
  intro ps
  induction ps with
  | nil => simp [hasNoDupKeys]
  | cons kv rest ih =>
    obtain ⟨k', v'⟩ := kv
    simp only [hasNoDupKeys, Bool.and_eq_true, keyAbsent_iff, ih, List.map_cons,
      List.nodup_cons]

theorem deepEqual_keys_subset : ∀ ps qs : List (String × JValue),
    isJsonProps ps = true → deepEqualProps ps qs = true →
    ∀ k, k ∈ ps.map Prod.fst → k ∈ qs.map Prod.fst := by
  intro ps qs hj hd k hk
  obtain ⟨⟨k1, v⟩, hmem, hfst⟩ := List.mem_map.mp hk
  simp only at hfst
  subst hfst
  by_contra hq
  have h1 : lookupProp qs k1 = .vundefined := lookupProp_of_not_mem qs k1 hq
  have h2 : deepEqual v (lookupProp qs k1) = true := deepEqualProps_forall ps qs hd k1 v hmem
  rw [h1] at h2
  have h3 : v ≠ .vundefined :=
    isJsonValue_ne_vundef v (isJsonProps_value ps k1 v hj hmem)
  rw [deepEqual_vundef_right v h3] at h2
  exact Bool.false_ne_true h2

/-- C5 (confirmed). The default-diff comparison `deepEqual` is deep structural
equality in the "only" direction over document values: two arrays compare
equal only when their lengths agree and every index compares equal; two
objects from the parsed-document domain (no `undefined` inside, unique keys)
compare equal only when their key sets coincide and the values at each shared
key compare equal recursively; and an `undefined` default value never
compares equal to any document-domain current value. -/
theorem deepEqual_structural_only :
    ∀ (xs ys : List JValue) (ps qs : List (String × JValue)) (a : JValue),
    (deepEqual (.varr xs) (.varr ys) = true →
      xs.length = ys.length
      ∧ ∀ i (h1 : i < xs.length) (h2 : i < ys.length),
          deepEqual (xs.get ⟨i, h1⟩) (ys.get ⟨i, h2⟩) = true)
    ∧ (isJsonValue (.vobj ps) = true → isJsonValue (.vobj qs) = true →
        deepEqual (.vobj ps) (.vobj qs) = true →
        (∀ k, k ∈ ps.map Prod.fst ↔ k ∈ qs.map Prod.fst)
        ∧ ∀ k v w, (k, v) ∈ ps → (k, w) ∈ qs → deepEqual v w = true)
    ∧ (isJsonValue a = true → deepEqual a .vundefined = false) := by
  intro xs ys ps qs a
  refine ⟨?_, ?_, ?_⟩
  · intro h
    simp only [deepEqual, Bool.and_eq_true, beq_iff_eq] at h
    exact ⟨h.1, deepEqualElems_get xs ys h.2⟩
  · intro hp hq h
    simp only [deepEqual, Bool.and_eq_true, beq_iff_eq] at h
    simp only [isJsonValue, Bool.and_eq_true] at hp hq
    have hlen : ps.length = qs.length := h.1
    have hsub := deepEqual_keys_subset ps qs hp.2 h.2
    have hndP : (ps.map Prod.fst).Nodup := (hasNoDupKeys_iff_nodup ps).mp hp.1
    have hndQ : (qs.map Prod.fst).Nodup := (hasNoDupKeys_iff_nodup qs).mp hq.1
    constructor
    · have hsubF : (ps.map Prod.fst).toFinset ⊆ (qs.map Prod.fst).toFinset := by
        intro k hkk
        exact List.mem_toFinset.mpr (hsub k (List.mem_toFinset.mp hkk))
      have hcards : (qs.map Prod.fst).toFinset.card ≤ (ps.map Prod.fst).toFinset.card := by
        rw [List.toFinset_card_of_nodup hndP, List.toFinset_card_of_nodup hndQ]
        simp [hlen]
      have heqF := Finset.eq_of_subset_of_card_le hsubF hcards
      intro k
      constructor
      · exact hsub k
      · intro hkq
        have hmem : k ∈ (qs.map Prod.fst).toFinset := List.mem_toFinset.mpr hkq
        rw [← heqF] at hmem
        exact List.mem_toFinset.mp hmem
    · intro k v w hv hw
      have h1 := deepEqualProps_forall ps qs h.2 k v hv
      rwa [lookupProp_of_mem_of_nodup qs k w hq.1 hw] at h1
  · intro hj
    exact deepEqual_vundef_right a (isJsonValue_ne_vundef a hj)

/-- C5 witness: for the two deep-equal objects `{a: 2, b: null}` and
`{b: null, a: 2}` the key "a" lies in both key sets, and `null` does not
compare equal to `undefined`. -/
theorem deepEqual_structural_only_witness :
    ("a" ∈ ([("a", JValue.vnum 2), ("b", JValue.vnull)].map Prod.fst) ↔
      "a" ∈ ([("b", JValue.vnull), ("a", JValue.vnum 2)].map Prod.fst))
    ∧ deepEqual .vnull .vundefined = false :=
  ⟨((deepEqual_structural_only [] [] [("a", .vnum 2), ("b", .vnull)]
      [("b", .vnull), ("a", .vnum 2)] .vnull).2.1
      (by decide) (by decide) (by decide)).1 "a",
   (deepEqual_structural_only [] [] [] [] .vnull).2.2 (by decide)⟩

theorem hexColorTest_iff : ∀ cs : List Char, hexColorTest cs = true ↔ specHexColor cs := by
  intro cs
  cases cs with
  | nil =>
    simp only [hexColorTest, specHexColor]
    constructor
    · intro h
      exact absurd h (by decide)
    · rintro ⟨ds, heq, _, _⟩
      exact absurd heq (by simp)
  | cons c rest =>
    simp only [hexColorTest, Bool.and_eq_true, Bool.or_eq_true, decide_eq_true_eq,
      beq_iff_eq, List.all_eq_true, specHexColor]
    constructor
    · rintro ⟨⟨hc, hlen⟩, hall⟩
      subst hc
      exact ⟨rest, rfl, or_assoc.mp hlen, hall⟩
    · rintro ⟨ds, heq, hlen, hall⟩
      injection heq with h1 h2
      subst h1
      subst h2
      exact ⟨⟨rfl, or_assoc.mpr hlen⟩, hall⟩

theorem cssColorFunctionTest_iff : ∀ cs : List Char,
    cssColorFunctionTest cs = true ↔ codeCssFunctionCall cs := by
  intro cs
  simp only [cssColorFunctionTest, codeCssFunctionCall, List.any_eq_true]
  constructor
  · rintro ⟨name, hname, hcond⟩
    simp only [Bool.and_eq_true, decide_eq_true_eq, List.all_eq_true] at hcond
    obtain ⟨⟨⟨htake, hlen⟩, hlast⟩, hall⟩ := hcond
    set low := cs.map Char.toLower with hlow
    set pre := name.data ++ ['('] with hpre
    set d := low.drop pre.length with hd
    have hdlen : d.length = low.length - pre.length := by
      rw [hd]
      exact List.length_drop _ _
    have hdne : d ≠ [] := by
      apply List.length_pos.mp
      omega
    have hsplit : low = pre ++ d := by
      conv_lhs => rw [← List.take_append_drop pre.length low]
      rw [htake, ← hd]
    have hlast' : d.getLast? = some ')' := by
      rw [hsplit] at hlast
      rwa [List.getLast?_append_of_ne_nil pre hdne] at hlast
    have hgl : d.getLast hdne = ')' := by
      have hg := List.getLast?_eq_getLast d hdne
      rw [hg] at hlast'
      exact Option.some.inj hlast'
    have hdsplit : d = d.dropLast ++ [')'] := by
      conv_lhs => rw [← List.dropLast_append_getLast hdne]
      rw [hgl]
    refine ⟨name, d.dropLast, hname, ?_, hall, ?_⟩
    · apply List.length_pos.mp
      have hdl : d.dropLast.length = d.length - 1 := List.length_dropLast d
      omega
    · calc low = pre ++ d := hsplit
        _ = pre ++ (d.dropLast ++ [')']) := by rw [← hdsplit]
        _ = name.data ++ '(' :: (d.dropLast ++ [')']) := by rw [hpre]; simp
  · rintro ⟨name, mid, hname, hmidne, hmid, heq⟩
    refine ⟨name, hname, ?_⟩
    simp only [Bool.and_eq_true, decide_eq_true_eq, List.all_eq_true]
    have heq' : cs.map Char.toLower = (name.data ++ ['(']) ++ (mid ++ [')']) := by
      rw [heq]
      simp
    refine ⟨⟨⟨?_, ?_⟩, ?_⟩, ?_⟩
    · rw [heq']
      exact List.take_left _ _
    · rw [heq']
      simp only [List.length_append, List.length_cons, List.length_nil]
      have hpos := List.length_pos.mpr hmidne
      omega
    · rw [heq', show (name.data ++ ['(']) ++ (mid ++ [')']) =
        ((name.data ++ ['(']) ++ mid) ++ [')'] by simp]
      exact List.getLast?_concat _
    · intro c hc
      rw [heq', List.drop_left, List.dropLast_concat] at hc
      exact hmid c hc

/-- C6 counterexample. The string "oklch(0.5 0.1 200)" is a CSS color
function call syntax — an alphabetic function name with a parenthesized
argument — yet `isValidColorValue` rejects it: `oklch` is not among the eight
function names hard-coded in `CSS_COLOR_FUNCTION_REGEX`, so the acceptance is
not "any CSS color function call syntax". -/
theorem colorValidity_counterexample :
    specCssFunctionCall (jsTrim "oklch(0.5 0.1 200)")
    ∧ isValidColorValue "oklch(0.5 0.1 200)" = false := by
  constructor
  · exact ⟨"oklch".data, "0.5 0.1 200".data, by decide, by decide, by decide, by decide⟩
  · decide

/-- C6 (corrected, amended claim). A committed color value is accepted if and
only if, after trimming, it is a 3-, 6- or 8-digit hex color (`#RGB`,
`#RRGGBB`, `#RRGGBBAA`) or a function call of one of the eight names `rgb`,
`rgba`, `hsl`, `hsla`, `hwb`, `lab`, `lch`, `color` (case-insensitively) with
a parenthesized nonempty argument — matched by function-name prefix plus a
parenthesized argument rather than full grammar validation, but limited to
that fixed name list rather than any CSS color function. -/
theorem isValidColorValue_iff :
    ∀ value : String,
    isValidColorValue value = true ↔
      specHexColor (jsTrim value) ∨ codeCssFunctionCall (jsTrim value) := by
  intro value
  simp only [isValidColorValue]
  cases htr : jsTrim value with
  | nil =>
    simp only [List.isEmpty_nil, if_true, specHexColor, codeCssFunctionCall]
    constructor
    · intro h
      exact absurd h (by decide)
    · rintro (⟨ds, heq, _, _⟩ | ⟨name, mid, _, _, _, heq⟩)
      · exact absurd heq (by simp)
      · simp at heq
  | cons c rest =>
    simp only [List.isEmpty_cons, if_false, Bool.false_eq_true]
    rw [Bool.or_eq_true, hexColorTest_iff, cssColorFunctionTest_iff]

theorem zonePush_has : ∀ (zs : List (String × List ZoneComponent)) (z : String)
    (c : ZoneComponent) (z' : String),
    zoneRecordHas (zonePush zs z c) z' = zoneRecordHas zs z' := by
  intro zs z c z'
  induction zs with
  | nil => rfl
  | cons e rest ih =>
    by_cases h : e.1 = z
    · simp [zonePush, zoneRecordHas, h] at ih ⊢
      rw [← ih]
    · simp [zonePush, zoneRecordHas, h] at ih ⊢
      rw [← ih]

theorem zoneRecordGet_zonePush_same : ∀ (zs : List (String × List ZoneComponent))
    (z : String) (c : ZoneComponent), zoneRecordHas zs z = true →
    zoneRecordGet (zonePush zs z c) z = zoneRecordGet zs z ++ [c] := by
  intro zs z c h
  induction zs with
  | nil => simp [zoneRecordHas] at h
  | cons e rest ih =>
    simp only [zonePush, List.map_cons] at ih ⊢
    by_cases he : e.1 = z
    · simp [zoneRecordGet, he]
    · simp only [zoneRecordHas, Bool.or_eq_true, decide_eq_true_eq] at h
      rcases h with h | h
      · exact absurd h he
      · simp only [he, if_false, zoneRecordGet]
        exact ih h

theorem zoneRecordGet_zonePush_other : ∀ (zs : List (String × List ZoneComponent))
    (z : String) (c : ZoneComponent) (z' : String), z' ≠ z →
    zoneRecordGet (zonePush zs z c) z' = zoneRecordGet zs z' := by
  intro zs z c z' hne
  induction zs with
  | nil => rfl
  | cons e rest ih =>
    simp only [zonePush, List.map_cons] at ih ⊢
    have hzz' : ¬ (z = z') := fun hh => hne hh.symm
    by_cases he : e.1 = z
    · simp [zoneRecordGet, he, hzz', ih]
    · by_cases he' : e.1 = z'
      · simp [zoneRecordGet, he, he', hne]
      · simp [zoneRecordGet, he, he', ih]

theorem buildZonesStep_has : ∀ (zs : List (String × List ZoneComponent))
    (p : EnrichedPlugin) (z' : String),
    zoneRecordHas (buildZonesStep zs p) z' = zoneRecordHas zs z' := by
  intro zs p z'
  unfold buildZonesStep
  cases p.layout with
  | none => rfl
  | some l =>
    by_cases hE : p.enabled = false
    · simp [hE]
    · simp only [hE, if_false]
      by_cases hH : zoneRecordHas zs l.position = true
      · simp [hH, zonePush_has]
      · simp [hH]

theorem foldl_buildZonesStep_has : ∀ (plugins : List EnrichedPlugin)
    (zs : List (String × List ZoneComponent)) (z : String),
    zoneRecordHas (plugins.foldl buildZonesStep zs) z = zoneRecordHas zs z := by
  intro plugins
  induction plugins with
  | nil => intro zs z; rfl
  | cons p rest ih =>
    intro zs z
    rw [List.foldl_cons, ih, buildZonesStep_has]

theorem zoneContribution_cons : ∀ (p : EnrichedPlugin) (rest : List EnrichedPlugin)
    (z : String),
    zoneContribution (p :: rest) z =
      (match p.layout with
       | some l =>
         if p.enabled = true ∧ l.position = z then [mkZoneComponent p l] else []
       | none => []) ++ zoneContribution rest z := by
  intro p rest z
  unfold zoneContribution
  rw [List.filterMap_cons]
  cases p.layout with
  | none => simp
  | some l =>
    by_cases h : p.enabled = true ∧ l.position = z
    · simp [h]
    · simp [h]

theorem foldl_buildZonesStep_get : ∀ (plugins : List EnrichedPlugin)
    (zs : List (String × List ZoneComponent)) (z : String),
    zoneRecordHas zs z = true →
    zoneRecordGet (plugins.foldl buildZonesStep zs) z =
      zoneRecordGet zs z ++ zoneContribution plugins z := by
  intro plugins
  induction plugins with
  | nil =>
    intro zs z _
    simp [zoneContribution]
  | cons p rest ih =>
    intro zs z h
    have h1 : zoneRecordHas (buildZonesStep zs p) z = true := by
      rw [buildZonesStep_has]
      exact h
    rw [List.foldl_cons, ih (buildZonesStep zs p) z h1, zoneContribution_cons,
      ← List.append_assoc]
    congr 1
    unfold buildZonesStep
    cases hL : p.layout with
    | none => simp
    | some l =>
      cases hEb : p.enabled with
      | false =>
        have hne : ¬ (p.enabled = true ∧ l.position = z) := by
          rintro ⟨h1, _⟩
          rw [hEb] at h1
          exact Bool.false_ne_true h1
        simp [hEb, hne]
      | true =>
        simp only [hEb]
        have hstep : (if (true : Bool) = false then zs
            else if zoneRecordHas zs l.position = true then
              zonePush zs l.position (mkZoneComponent p l)
            else zs) =
            (if zoneRecordHas zs l.position = true then
              zonePush zs l.position (mkZoneComponent p l)
            else zs) := by simp
        rw [hstep]
        by_cases hH : zoneRecordHas zs l.position = true
        · rw [if_pos hH]
          by_cases hpz : l.position = z
          · subst hpz
            rw [zoneRecordGet_zonePush_same zs l.position (mkZoneComponent p l) hH]
            simp
          · rw [zoneRecordGet_zonePush_other zs l.position (mkZoneComponent p l) z
              (fun hh => hpz hh.symm)]
            simp [hpz]
        · have hpz : l.position ≠ z := by
            intro hh
            rw [hh] at hH
            exact hH h
          rw [if_neg hH]
          simp [hpz]

theorem zoneRecordGet_empty : ∀ z : String, zoneRecordGet emptyZoneRecord z = [] := by
  intro z
  simp [zoneRecordGet, emptyZoneRecord]

theorem zoneRecordGet_map_sort : ∀ (zs : List (String × List ZoneComponent)) (z : String),
    zoneRecordHas zs z = true →
    zoneRecordGet (zs.map (fun e => (e.1, sortByPriority e.2))) z =
      sortByPriority (zoneRecordGet zs z) := by
  intro zs z h
  induction zs with
  | nil => simp [zoneRecordHas] at h
  | cons e rest ih =>
    by_cases he : e.1 = z
    · simp [zoneRecordGet, he]
    · simp only [zoneRecordHas, Bool.or_eq_true, decide_eq_true_eq] at h
      rcases h with h | h
      · exact absurd h he
      · simp [zoneRecordGet, he, ih h]

theorem zoneRecordHas_map_sort : ∀ (zs : List (String × List ZoneComponent)) (z : String),
    zoneRecordHas (zs.map (fun e => (e.1, sortByPriority e.2))) z =
      zoneRecordHas zs z := by
  intro zs z
  induction zs with
  | nil => rfl
  | cons e rest ih => simp [zoneRecordHas, ih]

theorem zoneRecordGet_eq_nil_of_not_has : ∀ (zs : List (String × List ZoneComponent))
    (z : String), zoneRecordHas zs z = false → zoneRecordGet zs z = [] := by
  intro zs z h
  induction zs with
  | nil => rfl
  | cons e rest ih =>
    simp only [zoneRecordHas, Bool.or_eq_false_iff, decide_eq_false_iff_not] at h
    simp only [zoneRecordGet, if_neg h.1]
    exact ih (by simpa [zoneRecordHas] using h.2)

theorem getZoneComponents_get : ∀ (plugins : List EnrichedPlugin) (z : String),
    zoneRecordHas emptyZoneRecord z = true →
    zoneRecordGet (getZoneComponents plugins) z =
      sortByPriority (zoneContribution plugins z) := by
  intro plugins z h
  unfold getZoneComponents buildZones
  rw [zoneRecordGet_map_sort _ z (by rw [foldl_buildZonesStep_has]; exact h),
    foldl_buildZonesStep_get plugins emptyZoneRecord z h, zoneRecordGet_empty]
  simp

theorem getZoneComponents_has : ∀ (plugins : List EnrichedPlugin) (z : String),
    zoneRecordHas (getZoneComponents plugins) z = zoneRecordHas emptyZoneRecord z := by
  intro plugins z
  unfold getZoneComponents buildZones
  rw [zoneRecordHas_map_sort, foldl_buildZonesStep_has]

theorem mem_insertByPriority : ∀ (c x : ZoneComponent) (l : List ZoneComponent),
    x ∈ insertByPriority c l ↔ x = c ∨ x ∈ l := by
  intro c x l
  induction l with
  | nil => simp [insertByPriority]
  | cons d rest ih =>
    by_cases h : c.priority < d.priority
    · simp only [insertByPriority, if_pos h, List.mem_cons]
    · simp only [insertByPriority, if_neg h, List.mem_cons, ih]
      tauto

theorem mem_sortByPriority : ∀ (l : List ZoneComponent) (x : ZoneComponent),
    x ∈ sortByPriority l ↔ x ∈ l := by
  have key : ∀ (l acc : List ZoneComponent) (x : ZoneComponent),
      x ∈ l.foldl (fun acc c => insertByPriority c acc) acc ↔ x ∈ acc ∨ x ∈ l := by
    intro l
    induction l with
    | nil => simp
    | cons c rest ih =>
      intro acc x
      rw [List.foldl_cons, ih, mem_insertByPriority]
      simp only [List.mem_cons]
      tauto
  intro l x
  unfold sortByPriority
  rw [key]
  simp

theorem mem_zoneContribution : ∀ (plugins : List EnrichedPlugin) (z : String)
    (c : ZoneComponent),
    c ∈ zoneContribution plugins z ↔
      ∃ p l, p ∈ plugins ∧ p.enabled = true ∧ p.layout = some l ∧ l.position = z
        ∧ c = mkZoneComponent p l := by
  intro plugins z c
  unfold zoneContribution
  rw [List.mem_filterMap]
  constructor
  · rintro ⟨p, hp, he⟩
    cases hL : p.layout with
    | none =>
      rw [hL] at he
      simp at he
    | some l =>
      rw [hL] at he
      have he' : (if p.enabled = true ∧ l.position = z then
          some (mkZoneComponent p l) else none) = some c := he
      by_cases hc : p.enabled = true ∧ l.position = z
      · rw [if_pos hc] at he'
        exact ⟨p, l, hp, hc.1, hL, hc.2, (Option.some.inj he').symm⟩
      · rw [if_neg hc] at he'
        simp at he'
  · rintro ⟨p, l, hp, he, hL, hz, hc⟩
    refine ⟨p, hp, ?_⟩
    rw [hL]
    show (if p.enabled = true ∧ l.position = z then
        some (mkZoneComponent p l) else none) = some c
    rw [if_pos ⟨he, hz⟩, hc]

theorem emptyZoneRecord_has_iff : ∀ z : String,
    zoneRecordHas emptyZoneRecord z = true ↔ z ∈ ZONES := by
  intro z
  constructor
  · intro h
    simp only [zoneRecordHas, emptyZoneRecord, Bool.or_eq_true, decide_eq_true_eq,
      Bool.false_eq_true, or_false] at h
    rcases h with h | h | h | h | h | h <;> subst h <;> decide
  · intro h
    simp only [ZONES, List.mem_cons, List.not_mem_nil, or_false] at h
    rcases h with h | h | h | h | h | h <;> subst h <;> decide

/-- C9 (confirmed). Every component appearing in a zone of the Layout panel's
zone record comes from a plugin that is enabled and has a non-null layout
whose position names that zone (hence one of the six fixed zones), and its
`position` field equals the zone; a plugin whose layout position names
anything outside the fixed zone set contributes its component to no zone —
it is silently omitted. -/
theorem zoneGrid_membership :
    ∀ (plugins : List EnrichedPlugin) (z : String) (c : ZoneComponent)
      (p : EnrichedPlugin) (l : PluginLayout),
    z ∈ ZONES →
    (c ∈ zoneRecordGet (getZoneComponents plugins) z →
      c.position = z ∧ ∃ p' l', p' ∈ plugins ∧ p'.enabled = true
        ∧ p'.layout = some l' ∧ l'.position = z ∧ c = mkZoneComponent p' l')
    ∧ (p ∈ plugins → p.layout = some l → l.position ∉ ZONES →
      mkZoneComponent p l ∉ zoneRecordGet (getZoneComponents plugins) z) := by
  intro plugins z c p l hzin
  have hz : zoneRecordHas emptyZoneRecord z = true := (emptyZoneRecord_has_iff z).mpr hzin
  have hchar : ∀ x : ZoneComponent, x ∈ zoneRecordGet (getZoneComponents plugins) z ↔
      x ∈ zoneContribution plugins z := by
    intro x
    rw [getZoneComponents_get plugins z hz, mem_sortByPriority]
  constructor
  · intro hc
    obtain ⟨p', l', hp', he', hL', hz', hceq⟩ :=
      (mem_zoneContribution plugins z c).mp ((hchar c).mp hc)
    refine ⟨?_, p', l', hp', he', hL', hz', hceq⟩
    rw [hceq]
    exact hz'
  · intro _ _ hnz hmem
    obtain ⟨p', l', _, _, _, hz', hceq⟩ :=
      (mem_zoneContribution plugins z _).mp ((hchar _).mp hmem)
    have h1 : l.position = z := by
      have h2 := congrArg ZoneComponent.position hceq
      simpa [mkZoneComponent, hz'] using h2
    exact hnz (h1 ▸ hzin)

/-- C9 witness: a single enabled plugin whose layout position is the
unrecognized zone name "center" contributes no component to the header zone. -/
theorem zoneGrid_membership_witness :
    mkZoneComponent
      { index := 0, name := "pluginC", displayName := "Plugin C", enabled := true,
        layout := some { position := "center", priority := 5, display := none,
                         condition := none, group := none, groupOptions := none } }
      { position := "center", priority := 5, display := none,
        condition := none, group := none, groupOptions := none }
    ∉ zoneRecordGet (getZoneComponents
      [{ index := 0, name := "pluginC", displayName := "Plugin C", enabled := true,
         layout := some { position := "center", priority := 5, display := none,
                          condition := none, group := none, groupOptions := none } }])
      "header" :=
  (zoneGrid_membership
    [{ index := 0, name := "pluginC", displayName := "Plugin C", enabled := true,
       layout := some { position := "center", priority := 5, display := none,
                        condition := none, group := none, groupOptions := none } }]
    "header"
    (mkZoneComponent
      { index := 0, name := "pluginC", displayName := "Plugin C", enabled := true,
        layout := some { position := "center", priority := 5, display := none,
                         condition := none, group := none, groupOptions := none } }
      { position := "center", priority := 5, display := none,
        condition := none, group := none, groupOptions := none })
    { index := 0, name := "pluginC", displayName := "Plugin C", enabled := true,
      layout := some { position := "center", priority := 5, display := none,
                       condition := none, group := none, groupOptions := none } }
    { position := "center", priority := 5, display := none,
      condition := none, group := none, groupOptions := none }
    (by decide)).2 (List.mem_singleton.mpr rfl) rfl (by decide)

theorem compFind_mem_name : ∀ (L : List ZoneComponent) (n : String) (x : ZoneComponent),
    compFind L n = some x → x ∈ L ∧ x.name = n := by
  intro L n x h
  induction L with
  | nil => simp [compFind] at h
  | cons c rest ih =>
    by_cases hc : c.name = n
    · simp only [compFind, if_pos hc] at h
      obtain rfl := Option.some.inj h
      exact ⟨List.mem_cons_self _ _, hc⟩
    · simp only [compFind, if_neg hc] at h
      obtain ⟨h1, h2⟩ := ih h
      exact ⟨List.mem_cons_of_mem _ h1, h2⟩

theorem compFind_unique : ∀ (L : List ZoneComponent) (n : String) (t : ZoneComponent),
    t ∈ L → t.name = n → (∀ x ∈ L, x.name = n → x = t) → compFind L n = some t := by
  intro L n t ht hn huniq
  induction L with
  | nil => simp at ht
  | cons c rest ih =>
    by_cases hc : c.name = n
    · simp only [compFind, if_pos hc]
      rw [huniq c (List.mem_cons_self _ _) hc]
    · simp only [compFind, if_neg hc]
      rcases List.mem_cons.mp ht with h | h
      · rw [← h] at hc
        exact absurd hn hc
      · exact ih h (fun x hx hxn => huniq x (List.mem_cons_of_mem _ hx) hxn)

theorem positionsPushStep_eq_some : ∀ (base : String → List ZoneComponent)
    (zone m : String) (f : List ZoneComponent) (sz : String) (comp : ZoneComponent),
    compFind (base sz) m = some comp →
    positionsPushStep base zone m f sz =
      if (compFind f m).isNone = true then f ++ [{ comp with position := zone }]
      else f := by
  intro base zone m f sz comp h
  unfold positionsPushStep
  rw [h]

theorem positionsPushStep_eq_none : ∀ (base : String → List ZoneComponent)
    (zone m : String) (f : List ZoneComponent) (sz : String),
    compFind (base sz) m = none → positionsPushStep base zone m f sz = f := by
  intro base zone m f sz h
  unfold positionsPushStep
  rw [h]

theorem mem_positionsPushStep : ∀ (base : String → List ZoneComponent)
    (zone m : String) (f : List ZoneComponent) (sz : String) (x : ZoneComponent),
    x ∈ positionsPushStep base zone m f sz →
    x ∈ f ∨ ∃ comp, compFind (base sz) m = some comp
      ∧ x = { comp with position := zone } := by
  intro base zone m f sz x hx
  cases hfind : compFind (base sz) m with
  | none =>
    rw [positionsPushStep_eq_none base zone m f sz hfind] at hx
    exact Or.inl hx
  | some comp =>
    rw [positionsPushStep_eq_some base zone m f sz comp hfind] at hx
    by_cases hnone : (compFind f m).isNone = true
    · rw [if_pos hnone] at hx
      rcases List.mem_append.mp hx with h | h
      · exact Or.inl h
      · exact Or.inr ⟨comp, rfl, List.mem_singleton.mp h⟩
    · rw [if_neg hnone] at hx
      exact Or.inl hx

theorem mem_foldl_positionsPushStep_of_mem : ∀ (zs : List String)
    (base : String → List ZoneComponent) (zone m : String)
    (f : List ZoneComponent) (x : ZoneComponent), x ∈ f →
    x ∈ zs.foldl (positionsPushStep base zone m) f := by
  intro zs
  induction zs with
  | nil =>
    intro base zone m f x hx
    exact hx
  | cons sz rest ih =>
    intro base zone m f x hx
    rw [List.foldl_cons]
    apply ih
    cases hfind : compFind (base sz) m with
    | none =>
      rw [positionsPushStep_eq_none base zone m f sz hfind]
      exact hx
    | some comp =>
      rw [positionsPushStep_eq_some base zone m f sz comp hfind]
      by_cases hn : (compFind f m).isNone = true
      · rw [if_pos hn]
        exact List.mem_append_left _ hx
      · rw [if_neg hn]
        exact hx

theorem mem_foldl_positionsPushStep : ∀ (zs : List String)
    (base : String → List ZoneComponent) (zone m : String)
    (f : List ZoneComponent) (x : ZoneComponent),
    x ∈ zs.foldl (positionsPushStep base zone m) f → x ∈ f ∨ x.name = m := by
  intro zs
  induction zs with
  | nil =>
    intro base zone m f x hx
    exact Or.inl hx
  | cons sz rest ih =>
    intro base zone m f x hx
    rw [List.foldl_cons] at hx
    rcases ih base zone m _ x hx with h | h
    · rcases mem_positionsPushStep base zone m f sz x h with h2 | ⟨comp, hfind, hx2⟩
      · exact Or.inl h2
      · right
        rw [hx2]
        simpa using (compFind_mem_name _ m comp hfind).2
    · exact Or.inr h

theorem positionsPush_fold_exists : ∀ (zs : List String)
    (base : String → List ZoneComponent) (zone n : String) (idx : Nat)
    (f : List ZoneComponent),
    (∀ c ∈ f, c.name = n → c.pluginIndex = idx) →
    (∀ sz comp, compFind (base sz) n = some comp → comp.pluginIndex = idx) →
    (∃ sz ∈ zs, (compFind (base sz) n).isSome = true) →
    ∃ c ∈ zs.foldl (positionsPushStep base zone n) f,
      c.name = n ∧ c.pluginIndex = idx := by
  intro zs
  induction zs with
  | nil =>
    rintro base zone n idx f _ _ ⟨sz, hsz, _⟩
    simp at hsz
  | cons sz rest ih =>
    rintro base zone n idx f hf hbase hex
    rw [List.foldl_cons]
    cases hfind : compFind (base sz) n with
    | some comp =>
      cases hffind : compFind f n with
      | none =>
        have hstep : positionsPushStep base zone n f sz =
            f ++ [{ comp with position := zone }] := by
          rw [positionsPushStep_eq_some base zone n f sz comp hfind]
          simp [hffind]
        rw [hstep]
        have hmem : { comp with position := zone } ∈
            f ++ [{ comp with position := zone }] := by simp
        have hname : comp.name = n := (compFind_mem_name (base sz) n comp hfind).2
        refine ⟨{ comp with position := zone },
          mem_foldl_positionsPushStep_of_mem rest base zone n _ _ hmem, ?_, ?_⟩
        · simpa using hname
        · simpa using hbase sz comp hfind
      | some c0 =>
        have hstep : positionsPushStep base zone n f sz = f := by
          rw [positionsPushStep_eq_some base zone n f sz comp hfind]
          simp [hffind]
        rw [hstep]
        have hc0 := compFind_mem_name f n c0 hffind
        exact ⟨c0, mem_foldl_positionsPushStep_of_mem rest base zone n f c0 hc0.1,
          hc0.2, hf c0 hc0.1 hc0.2⟩
    | none =>
      have hstep : positionsPushStep base zone n f sz = f :=
        positionsPushStep_eq_none base zone n f sz hfind
      rw [hstep]
      obtain ⟨sz', hsz', hsome⟩ := hex
      rcases List.mem_cons.mp hsz' with h | h
      · rw [h] at hsome
        rw [hfind] at hsome
        simp at hsome
      · exact ih base zone n idx f hf hbase ⟨sz', h, hsome⟩

theorem positionsStep_eq_vstr : ∀ (base : String → List ZoneComponent)
    (zone : String) (f : List ZoneComponent) (k s : String),
    positionsStep base zone f (k, .vstr s) =
      if s = zone then positionsPush base zone k f
      else f.filter (fun c => c.name ≠ k) := by
  intro base zone f k s
  rfl

theorem noName_positionsStep : ∀ (base : String → List ZoneComponent)
    (zone : String) (f : List ZoneComponent) (entry : String × JValue) (n : String),
    entry.1 ≠ n → (∀ c ∈ f, c.name ≠ n) →
    ∀ c ∈ positionsStep base zone f entry, c.name ≠ n := by
  intro base zone f entry n hne hf c hc
  obtain ⟨k, v⟩ := entry
  cases v with
  | vstr s =>
    rw [positionsStep_eq_vstr] at hc
    by_cases hsz : s = zone
    · rw [if_pos hsz] at hc
      unfold positionsPush at hc
      rcases mem_foldl_positionsPushStep ZONES base zone k f c hc with h | h
      · exact hf c h
      · rw [h]
        exact hne
    · rw [if_neg hsz] at hc
      exact hf c (List.mem_of_mem_filter hc)
  | vundefined => exact hf c hc
  | vnull => exact hf c hc
  | vbool b => exact hf c hc
  | vnum m => exact hf c hc
  | varr xs => exact hf c hc
  | vobj ps => exact hf c hc

theorem exists_positionsStep : ∀ (base : String → List ZoneComponent)
    (zone : String) (f : List ZoneComponent) (entry : String × JValue)
    (n : String) (idx : Nat), entry.1 ≠ n →
    (∃ c ∈ f, c.name = n ∧ c.pluginIndex = idx) →
    ∃ c ∈ positionsStep base zone f entry, c.name = n ∧ c.pluginIndex = idx := by
  rintro base zone f entry n idx hne ⟨c, hc, hcn, hci⟩
  obtain ⟨k, v⟩ := entry
  cases v with
  | vstr s =>
    rw [positionsStep_eq_vstr]
    by_cases hsz : s = zone
    · rw [if_pos hsz]
      unfold positionsPush
      exact ⟨c, mem_foldl_positionsPushStep_of_mem ZONES base zone k f c hc, hcn, hci⟩
    · rw [if_neg hsz]
      refine ⟨c, List.mem_filter.mpr ⟨hc, ?_⟩, hcn, hci⟩
      simp only [decide_eq_true_eq, ne_eq]
      rw [hcn]
      exact fun h => hne h.symm
  | vundefined => exact ⟨c, hc, hcn, hci⟩
  | vnull => exact ⟨c, hc, hcn, hci⟩
  | vbool b => exact ⟨c, hc, hcn, hci⟩
  | vnum m => exact ⟨c, hc, hcn, hci⟩
  | varr xs => exact ⟨c, hc, hcn, hci⟩
  | vobj ps => exact ⟨c, hc, hcn, hci⟩

theorem noName_positionsStep_fold : ∀ (entries : List (String × JValue))
    (base : String → List ZoneComponent) (zone : String)
    (f : List ZoneComponent) (n : String),
    (∀ e ∈ entries, e.1 ≠ n) → (∀ c ∈ f, c.name ≠ n) →
    ∀ c ∈ entries.foldl (positionsStep base zone) f, c.name ≠ n := by
  intro entries
  induction entries with
  | nil =>
    intro base zone f n _ hf c hc
    exact hf c hc
  | cons e rest ih =>
    intro base zone f n hk hf c hc
    rw [List.foldl_cons] at hc
    exact ih base zone _ n (fun e' he' => hk e' (List.mem_cons_of_mem _ he'))
      (noName_positionsStep base zone f e n (hk e (List.mem_cons_self _ _)) hf) c hc

theorem exists_positionsStep_fold : ∀ (entries : List (String × JValue))
    (base : String → List ZoneComponent) (zone : String)
    (f : List ZoneComponent) (n : String) (idx : Nat),
    (∀ e ∈ entries, e.1 ≠ n) →
    (∃ c ∈ f, c.name = n ∧ c.pluginIndex = idx) →
    ∃ c ∈ entries.foldl (positionsStep base zone) f,
      c.name = n ∧ c.pluginIndex = idx := by
  intro entries
  induction entries with
  | nil =>
    intro base zone f n idx _ hf
    exact hf
  | cons e rest ih =>
    intro base zone f n idx hk hf
    rw [List.foldl_cons]
    exact ih base zone _ n idx (fun e' he' => hk e' (List.mem_cons_of_mem _ he'))
      (exists_positionsStep base zone f e n idx (hk e (List.mem_cons_self _ _)) hf)

theorem excludeFilter_subset : ∀ (ex : Option (List String))
    (L : List ZoneComponent), ∀ c ∈ excludeFilter ex L, c ∈ L := by
  intro ex L c hc
  cases ex with
  | none => exact hc
  | some names => exact List.mem_of_mem_filter hc

theorem nodupKeys_split : ∀ (ps₁ ps₂ : List (String × JValue)) (n : String) (v : JValue),
    hasNoDupKeys (ps₁ ++ (n, v) :: ps₂) = true →
    (∀ e ∈ ps₁, e.1 ≠ n) ∧ (∀ e ∈ ps₂, e.1 ≠ n) := by
  intro ps₁
  induction ps₁ with
  | nil =>
    intro ps₂ n v h
    simp only [List.nil_append, hasNoDupKeys, Bool.and_eq_true] at h
    refine ⟨by simp, ?_⟩
    intro e he heq
    have h1 := (keyAbsent_iff ps₂ n).mp h.1
    exact h1 (List.mem_map.mpr ⟨e, he, heq⟩)
  | cons e₀ rest ih =>
    intro ps₂ n v h
    obtain ⟨k₀, v₀⟩ := e₀
    simp only [List.cons_append, hasNoDupKeys, Bool.and_eq_true] at h
    obtain ⟨hk₀, hrest⟩ := h
    obtain ⟨h1, h2⟩ := ih ps₂ n v hrest
    refine ⟨?_, h2⟩
    intro e he
    rcases List.mem_cons.mp he with h3 | h3
    · rw [h3]
      intro heq
      have hkn : k₀ = n := heq
      have hmem : k₀ ∈ List.map Prod.fst (rest ++ (n, v) :: ps₂) := by
        rw [hkn]
        exact List.mem_map.mpr ⟨(n, v), List.mem_append_right _ (List.mem_cons_self _ _), rfl⟩
      exact (keyAbsent_iff (rest ++ (n, v) :: ps₂) k₀).mp hk₀ hmem
    · exact h1 e h3

theorem filter_name_ne : ∀ (f : List ZoneComponent) (n : String),
    ∀ c ∈ f.filter (fun c => c.name ≠ n), c.name ≠ n := by
  intro f n c hc
  have h := (List.mem_filter.mp hc).2
  simpa using h

/-- C7 (confirmed). For an enabled plugin whose default layout position is
`header`, a page-type override whose positions record maps the plugin's name
to `footer` makes the Layout panel's zone view under that page type exclude
the plugin's component from `header` and include it (repositioned, same
plugin index) in `footer`, while under the "default" page type the plugin's
component remains in `header`. The plugin's name is assumed unique among the
plugin list, as names derived from sources are. -/
theorem pageTypeOverride_repositions :
    ∀ (plugins : List EnrichedPlugin)
      (byPageType : List (String × PageTypeOverride)) (pt : String)
      (ov : PageTypeOverride) (ps : List (String × JValue))
      (p : EnrichedPlugin) (l : PluginLayout),
    p ∈ plugins → p.enabled = true → p.layout = some l → l.position = "header" →
    pt ≠ "default" →
    assocFind byPageType pt = some ov →
    ov.positions = some ps →
    (p.name, JValue.vstr "footer") ∈ ps →
    hasNoDupKeys ps = true →
    (∀ q ∈ plugins, q.name = p.name → q = p) →
    (∀ c ∈ zoneComponentsForPageType plugins (some byPageType) pt "header",
      c.name ≠ p.name)
    ∧ (∃ c ∈ zoneComponentsForPageType plugins (some byPageType) pt "footer",
      c.name = p.name ∧ c.pluginIndex = p.index)
    ∧ (∃ c ∈ zoneComponentsForPageType plugins (some byPageType) "default" "header",
      c.name = p.name ∧ c.pluginIndex = p.index) := by
  intro plugins byPageType pt ov ps p l hp hen hL hpos hpt hfind hps hmem hnodup huniq
  have hbonly : ∀ (z : String) (x : ZoneComponent),
      x ∈ zoneRecordGet (getZoneComponents plugins) z → x.name = p.name →
      x = mkZoneComponent p l := by
    intro z x hx hxn
    by_cases hz : zoneRecordHas emptyZoneRecord z = true
    · have hx' : x ∈ zoneContribution plugins z := by
        rwa [getZoneComponents_get plugins z hz, mem_sortByPriority] at hx
      obtain ⟨p', l', hp', he', hL', hz', hceq⟩ :=
        (mem_zoneContribution plugins z x).mp hx'
      have hpname : p'.name = p.name := by
        rw [hceq] at hxn
        simpa [mkZoneComponent] using hxn
      have hpp : p' = p := huniq p' hp' hpname
      subst hpp
      have hll : l' = l := by
        rw [hL] at hL'
        exact (Option.some.inj hL').symm
      rw [hceq, hll]
    · have hzf : zoneRecordHas emptyZoneRecord z = false := by
        revert hz
        cases zoneRecordHas emptyZoneRecord z <;> simp
      have hnil : zoneRecordGet (getZoneComponents plugins) z = [] :=
        zoneRecordGet_eq_nil_of_not_has _ z (by rw [getZoneComponents_has]; exact hzf)
      rw [hnil] at hx
      simp at hx
  have hin : mkZoneComponent p l ∈ zoneRecordGet (getZoneComponents plugins) "header" := by
    rw [getZoneComponents_get plugins "header" (by decide), mem_sortByPriority]
    exact (mem_zoneContribution plugins "header" _).mpr ⟨p, l, hp, hen, hL, hpos, rfl⟩
  have hfindheader :
      compFind (zoneRecordGet (getZoneComponents plugins) "header") p.name =
        some (mkZoneComponent p l) :=
    compFind_unique _ _ _ hin rfl (fun x hx hxn => hbonly "header" x hx hxn)
  have hbaseidx : ∀ (sz : String) (comp : ZoneComponent),
      compFind (zoneRecordGet (getZoneComponents plugins) sz) p.name = some comp →
      comp.pluginIndex = p.index := by
    intro sz comp hc
    obtain ⟨hcm, hcn⟩ := compFind_mem_name _ _ _ hc
    rw [hbonly sz comp hcm hcn]
    rfl
  have hview : ∀ zone : String, ZONES.contains zone = true →
      zoneComponentsForPageType plugins (some byPageType) pt zone =
        sortByPriority (ps.foldl
          (positionsStep (fun z => zoneRecordGet (getZoneComponents plugins) z) zone)
          (excludeFilter ov.exclude (zoneRecordGet (getZoneComponents plugins) zone))) := by
    intro zone hcont
    simp only [zoneComponentsForPageType, hpt, if_false, Option.some_bind, hfind,
      hps, hcont, if_true, Option.bind]
  obtain ⟨ps₁, ps₂, hsplit⟩ := List.append_of_mem hmem
  have hnodup' : hasNoDupKeys (ps₁ ++ (p.name, JValue.vstr "footer") :: ps₂) = true := by
    rw [← hsplit]
    exact hnodup
  obtain ⟨hk₁, hk₂⟩ := nodupKeys_split ps₁ ps₂ p.name (.vstr "footer") hnodup'
  refine ⟨?_, ?_, ?_⟩
  · -- excluded from header under the override
    intro c hc
    rw [hview "header" (by decide), mem_sortByPriority, hsplit, List.foldl_append,
      List.foldl_cons, positionsStep_eq_vstr, if_neg (by decide : ¬ ("footer" = "header"))] at hc
    exact noName_positionsStep_fold ps₂ _ "header" _ p.name hk₂
      (filter_name_ne _ p.name) c hc
  · -- included in footer under the override
    have h0 : ∀ c ∈ excludeFilter ov.exclude
        (zoneRecordGet (getZoneComponents plugins) "footer"), c.name ≠ p.name := by
      intro c hc hcn
      have hcb : c ∈ zoneRecordGet (getZoneComponents plugins) "footer" :=
        excludeFilter_subset _ _ c hc
      have hceq := hbonly "footer" c hcb hcn
      have hc' : c ∈ zoneContribution plugins "footer" := by
        rwa [getZoneComponents_get plugins "footer" (by decide), mem_sortByPriority] at hcb
      obtain ⟨p', l', _, _, _, hz', hceq'⟩ := (mem_zoneContribution _ _ _).mp hc'
      have hcpos : c.position = "footer" := by
        rw [hceq']
        simpa [mkZoneComponent] using hz'
      rw [hceq] at hcpos
      have : l.position = "footer" := by simpa [mkZoneComponent] using hcpos
      rw [hpos] at this
      exact absurd this (by decide)
    have hf₁ : ∀ c ∈ ps₁.foldl
        (positionsStep (fun z => zoneRecordGet (getZoneComponents plugins) z) "footer")
        (excludeFilter ov.exclude (zoneRecordGet (getZoneComponents plugins) "footer")),
        c.name ≠ p.name :=
      noName_positionsStep_fold ps₁ _ "footer" _ p.name hk₁ h0
    have hexist : ∃ c ∈ positionsStep
        (fun z => zoneRecordGet (getZoneComponents plugins) z) "footer"
        (ps₁.foldl
          (positionsStep (fun z => zoneRecordGet (getZoneComponents plugins) z) "footer")
          (excludeFilter ov.exclude (zoneRecordGet (getZoneComponents plugins) "footer")))
        (p.name, JValue.vstr "footer"),
        c.name = p.name ∧ c.pluginIndex = p.index := by
      rw [positionsStep_eq_vstr, if_pos rfl]
      unfold positionsPush
      apply positionsPush_fold_exists ZONES
        (fun z => zoneRecordGet (getZoneComponents plugins) z) "footer" p.name p.index
      · intro c hc hcn
        exact absurd hcn (hf₁ c hc)
      · intro sz comp hc
        exact hbaseidx sz comp hc
      · refine ⟨"header", by decide, ?_⟩
        show (compFind (zoneRecordGet (getZoneComponents plugins) "header") p.name).isSome = true
        rw [hfindheader]
        rfl
    obtain ⟨c, hcmem, hcp⟩ := exists_positionsStep_fold ps₂
      (fun z => zoneRecordGet (getZoneComponents plugins) z) "footer" _ p.name p.index
      hk₂ hexist
    refine ⟨c, ?_, hcp⟩
    rw [hview "footer" (by decide), mem_sortByPriority, hsplit, List.foldl_append,
      List.foldl_cons]
    exact hcmem
  · -- still in header under the default page type
    have hdef : zoneComponentsForPageType plugins (some byPageType) "default" "header" =
        zoneRecordGet (getZoneComponents plugins) "header" := by
      simp [zoneComponentsForPageType]
    rw [hdef]
    exact ⟨mkZoneComponent p l, hin, rfl, rfl⟩

/-- C7 witness: the concrete scenario of the claim — pluginX (enabled, header,
priority 10) and a "list" page type overriding its position to footer — puts
a component named pluginX with plugin index 0 into the footer view. -/
theorem pageTypeOverride_repositions_witness :
    ∃ c ∈ zoneComponentsForPageType
      [{ index := 0, name := "pluginX", displayName := "Plugin X", enabled := true,
         layout := some { position := "header", priority := 10, display := none,
                          condition := none, group := none, groupOptions := none } },
       { index := 1, name := "pluginY", displayName := "Plugin Y", enabled := true,
         layout := some { position := "footer", priority := 5, display := none,
                          condition := none, group := none, groupOptions := none } }]
      (some [("list", { exclude := none,
                        positions := some [("pluginX", JValue.vstr "footer")] })])
      "list" "footer",
      c.name = "pluginX" ∧ c.pluginIndex = 0 :=
  (pageTypeOverride_repositions
    [{ index := 0, name := "pluginX", displayName := "Plugin X", enabled := true,
       layout := some { position := "header", priority := 10, display := none,
                        condition := none, group := none, groupOptions := none } },
     { index := 1, name := "pluginY", displayName := "Plugin Y", enabled := true,
       layout := some { position := "footer", priority := 5, display := none,
                        condition := none, group := none, groupOptions := none } }]
    [("list", { exclude := none,
                positions := some [("pluginX", JValue.vstr "footer")] })]
    "list"
    { exclude := none, positions := some [("pluginX", JValue.vstr "footer")] }
    [("pluginX", JValue.vstr "footer")]
    { index := 0, name := "pluginX", displayName := "Plugin X", enabled := true,
      layout := some { position := "header", priority := 10, display := none,
                       condition := none, group := none, groupOptions := none } }
    { position := "header", priority := 10, display := none,
      condition := none, group := none, groupOptions := none }
    (List.mem_cons_self _ _) rfl rfl rfl (by decide) rfl rfl
    (List.mem_singleton.mpr rfl) (by decide)
    (by
      intro q hq hn
      rcases List.mem_cons.mp hq with h | h
      · exact h
      · rw [List.mem_singleton.mp h] at hn
        exact absurd hn (by decide))).2.1
